import Mathlib

/-!
# The fetch engine of `https_client.c`

A shallow embedding of `src/https_client.c`.

* The registry `client->fetches` is an intrusive singly linked list; it is a `List` of
  contexts here, head first, and a context pointer is the `addr` field of a context.
* The libev reactor behind `c->loop` and the curl transfer engine behind `c->curlm` are
  external.  The reactor is the record `ev_loop` holding the registrations made by
  `ev_io_start` / `ev_timer_start`.  Calls into the transfer engine and calls of completion
  callbacks are appended to `trace`, in program order.
* Callbacks which the transfer engine makes while it is being re-entered (`write_buffer`,
  `multi_sock_cb`, `multi_timer_cb`) are separate steps of `step`.  A completion callback is
  taken not to call back into the client.
* The delay `timeout_ms / 1000.0` is a `double`; it is kept as that expression
  (`ev_tstamp`), not evaluated.
* `FD_SETSIZE` comes from the system headers and is a parameter.  The `while` loop of
  `https_client_cleanup` runs on fuel; that enough fuel exists is part of what is proved.
-/

namespace HttpsClient

/-! ## Constants of the curl and libev headers (`curl/multi.h`, `ev.h`) -/

def CURL_POLL_IN : Nat := 1
def CURL_POLL_OUT : Nat := 2
def CURL_POLL_INOUT : Nat := 3
def CURL_POLL_REMOVE : Nat := 4
def EV_READ : Nat := 1
def EV_WRITE : Nat := 2
def CURL_SOCKET_TIMEOUT : Int := -1
def CURLMSG_DONE : Nat := 1
def CURLM_OK : Int := 0

/-! ## Data model -/

abbrev Byte := Nat

/-- A `struct https_fetch_ctx`.  `addr` is the address of the struct itself (what a
`struct https_fetch_ctx *` compares equal on); `next` is the tail of the list the context
sits in.  `buf = none` is the `NULL` pointer, `some b` a heap block with contents `b`. -/
structure https_fetch_ctx where
  addr : Nat
  curl : Nat
  cb : Nat
  cb_data : Nat
  buf : Option (List Byte)
  buflen : Nat
deriving DecidableEq

/-- A libev `ev_io` watcher: the `active` flag libev keeps in it, and what `ev_io_init`
stored. -/
structure ev_io where
  active : Bool
  fd : Nat
  events : Nat
deriving DecidableEq

/-- A libev `ev_tstamp`, which is a C `double`.  Floating point is not evaluated here: a
value is kept as the expression the source computes it by, either the constant `0` or the
quotient `timeout_ms / 1000.0` of a `long` by the `double` constant. -/
inductive ev_tstamp where
  | zero
  | long_div_1000 (timeout_ms : Int)
deriving DecidableEq

/-- A libev `ev_timer` watcher (`after` and `repeat_` in seconds). -/
structure ev_timer where
  active : Bool
  after : ev_tstamp
  repeat_ : ev_tstamp
deriving DecidableEq

/-- One I/O registration inside the reactor: watcher `w` (the index of the slot of `c->fd`
the watcher lives in) is linked into the watcher list of descriptor `fd`. -/
structure IoSub where
  w : Nat
  fd : Nat
  events : Nat
deriving DecidableEq

/-- One timer registration inside the reactor. -/
structure TimerSub where
  after : ev_tstamp
  repeat_ : ev_tstamp
deriving DecidableEq

/-- The reactor: its I/O registrations and its timer registrations. -/
structure ev_loop where
  ios : List IoSub
  timers : List TimerSub
deriving DecidableEq

/-- What the program does to the outside, in program order.  `callback ctx fetches` is the
call `ctx->cb(ctx->cb_data, ctx->buf, ctx->buflen)`; `fetches` is the value of
`client->fetches` (with the `next` links behind it) at the moment of the call. -/
inductive Event where
  | curl_multi_add_handle (h : Nat)
  | curl_multi_remove_handle (h : Nat)
  | curl_easy_cleanup (h : Nat)
  | callback (ctx : https_fetch_ctx) (fetches : List https_fetch_ctx)
  | curl_multi_socket_action (sock : Int) (ev_bitmask : Nat)
  | FLOG
  | curl_multi_cleanup
deriving DecidableEq

/-- A `https_client_t` together with the reactor `c->loop` points to and the trace.
`c->curlm`, `c->opt` and `c->still_running` take part in no decision and are left out. -/
structure https_client_t where
  fetches : List https_fetch_ctx
  fd : Nat → ev_io
  timer : ev_timer
  loop : ev_loop
  trace : List Event

/-- A `CURLMsg` as returned by `curl_multi_info_read`. -/
structure CURLMsg where
  msg : Nat
  easy_handle : Nat
deriving DecidableEq

/-! ## Heap blocks -/

/-- The call `realloc(p, n)`.  `heap = none`: out of memory, `NULL` is returned and the old
block stays as it is.  `heap = some junk`: a block of `n` bytes whose first bytes are those
of the old block; the bytes the old block does not cover are unspecified and read `junk`
(padded with zeros). -/
def realloc (heap : Option (List Byte)) (p : Option (List Byte)) (n : Nat) :
    Option (List Byte) :=
  match heap with
  | none => none
  | some junk => some ((p.getD [] ++ junk ++ List.replicate n 0).take n)

/-- The call `memcpy(&dst[off], src, n)`. -/
def memcpy (dst : List Byte) (off : Nat) (src : List Byte) (n : Nat) : List Byte :=
  dst.take off ++ src.take n ++ dst.drop (off + n)

/-- The function `write_buffer(buf, size, nmemb, userp)` with `userp` pointing to `ctx`:
the context afterwards and the value returned.  `heap` is what `realloc` will answer.  The
sizes are naturals: `ctx->buflen + size * nmemb + 1` counts bytes that are all in memory at
once, so the `size_t` arithmetic does not wrap.  The `ELOG` call is left out. -/
def write_buffer (heap : Option (List Byte)) (buf : List Byte) (size nmemb : Nat)
    (ctx : https_fetch_ctx) : https_fetch_ctx × Nat :=
  match realloc heap ctx.buf (ctx.buflen + size * nmemb + 1) with
  | none => (ctx, 0)
  | some new_buf =>
    let copied := memcpy new_buf ctx.buflen buf (size * nmemb)
    let buflen := ctx.buflen + size * nmemb
    ({ ctx with buf := some (copied.set buflen 0), buflen := buflen }, size * nmemb)

/-- One data arrival: the chunk and what `realloc` answers. -/
structure Arrival where
  heap : Option (List Byte)
  buf : List Byte
  size : Nat
  nmemb : Nat

/-- A sequence of data arrivals for one context, in order. -/
def write_all : List Arrival → https_fetch_ctx → https_fetch_ctx
  | [], ctx => ctx
  | a :: rest, ctx => write_all rest (write_buffer a.heap a.buf a.size a.nmemb ctx).1

/-! ## The registry -/

/-- The loop of `https_fetch_ctx_cleanup`: `visited` are the nodes already passed (`last`
is the last of them), `cur :: rest` is the list from `cur` on.  At the matching node the
callback runs first, with `client->fetches` untouched, and the node is unlinked after. -/
def https_fetch_ctx_cleanup_walk (client : https_client_t) (ctx : Nat) :
    List https_fetch_ctx → List https_fetch_ctx → https_client_t
  | _, [] => client
  | visited, cur :: rest =>
    if cur.addr = ctx then
      { client with
        trace := client.trace ++
          [Event.curl_multi_remove_handle cur.curl, Event.curl_easy_cleanup cur.curl,
           Event.callback cur client.fetches]
        fetches := visited ++ rest }
    else https_fetch_ctx_cleanup_walk client ctx (visited ++ [cur]) rest

/-- The function `https_fetch_ctx_cleanup(client, ctx)`. -/
def https_fetch_ctx_cleanup (client : https_client_t) (ctx : Nat) : https_client_t :=
  https_fetch_ctx_cleanup_walk client ctx [] client.fetches

/-- The inner loop of `check_multi_info`: the first node whose handle is `easy_handle` is
cleaned up (and freed), then the loop breaks. -/
def check_multi_info_find (c : https_client_t) (easy_handle : Nat) :
    List https_fetch_ctx → https_client_t
  | [] => c
  | n :: rest =>
    if n.curl = easy_handle then https_fetch_ctx_cleanup c n.addr
    else check_multi_info_find c easy_handle rest

/-- The function `check_multi_info(c)`; `msgs` are the messages which the successive calls
of `curl_multi_info_read` return before it returns `NULL`. -/
def check_multi_info : List CURLMsg → https_client_t → https_client_t
  | [], c => c
  | m :: rest, c =>
    if m.msg = CURLMSG_DONE then
      check_multi_info rest (check_multi_info_find c m.easy_handle c.fetches)
    else check_multi_info rest c

/-- The function `https_fetch_ctx_init`, called by `https_client_fetch` with the block
`calloc` returned (`new_ctx`); `curl` is what `curl_easy_init` returns.  The
`curl_easy_setopt` calls configure the handle, are taken to succeed and leave no trace;
`url` and `resolv` go nowhere else. -/
def https_fetch_ctx_init (client : https_client_t) (new_ctx curl cb cb_data : Nat) :
    https_client_t :=
  { client with
    fetches := { addr := new_ctx, curl := curl, cb := cb, cb_data := cb_data,
                 buf := none, buflen := 0 } :: client.fetches
    trace := client.trace ++ [Event.curl_multi_add_handle curl] }

/-- The function `https_client_fetch`. -/
def https_client_fetch (c : https_client_t) (new_ctx curl cb cb_data : Nat) :
    https_client_t :=
  https_fetch_ctx_init c new_ctx curl cb cb_data

/-! ## The reactor primitives -/

/-- Store `v` at index `i` of a table. -/
def setSlot {α : Type} (t : Nat → α) (i : Nat) (v : α) : Nat → α :=
  fun j => if j = i then v else t j

/-- The libev call `ev_io_stop(c->loop, &c->fd[i])`: nothing happens to a watcher that is
not active; an active one is taken off the reactor and is inactive afterwards. -/
def ev_io_stop (c : https_client_t) (i : Nat) : https_client_t :=
  if (c.fd i).active then
    { c with
      loop := { c.loop with ios := c.loop.ios.eraseP (fun s => decide (s.w = i)) }
      fd := setSlot c.fd i { c.fd i with active := false } }
  else c

/-- The libev macro `ev_io_init(&c->fd[i], cb, fd, events)`: it clears the watcher's
`active` flag and stores `fd` and `events`; the reactor is not told. -/
def ev_io_init (c : https_client_t) (i fd events : Nat) : https_client_t :=
  { c with fd := setSlot c.fd i { active := false, fd := fd, events := events } }

/-- The libev call `ev_io_start(c->loop, &c->fd[i])`: nothing happens to a watcher whose
`active` flag is set; otherwise the watcher is linked into the reactor and flagged.  The
flag is all libev goes by: a linked watcher whose flag `ev_io_init` has cleared is linked
once more. -/
def ev_io_start (c : https_client_t) (i : Nat) : https_client_t :=
  if (c.fd i).active then c
  else
    { c with
      loop := { c.loop with
                ios := { w := i, fd := (c.fd i).fd, events := (c.fd i).events } :: c.loop.ios }
      fd := setSlot c.fd i { c.fd i with active := true } }

/-- The libev call `ev_timer_stop(c->loop, &c->timer)`: an active timer is taken off the
reactor (`c->timer` is the only timer watcher of the engine). -/
def ev_timer_stop (c : https_client_t) : https_client_t :=
  if c.timer.active then
    { c with
      loop := { c.loop with timers := c.loop.timers.tail }
      timer := { c.timer with active := false } }
  else c

/-- The libev macro `ev_timer_init(&c->timer, cb, after, repeat)`. -/
def ev_timer_init (c : https_client_t) (after repeat_ : ev_tstamp) : https_client_t :=
  { c with timer := { active := false, after := after, repeat_ := repeat_ } }

/-- The libev call `ev_timer_start(c->loop, &c->timer)`. -/
def ev_timer_start (c : https_client_t) : https_client_t :=
  if c.timer.active then c
  else
    { c with
      loop := { c.loop with
                timers := { after := c.timer.after, repeat_ := c.timer.repeat_ } ::
                  c.loop.timers }
      timer := { c.timer with active := true } }

/-! ## The reactor bridge -/

/-- The statements `rc = curl_multi_socket_action(c->curlm, sock, ev_bitmask, ...)` and
`if (rc != CURLM_OK) FLOG(...)`; `rc` is what the transfer engine returns.  `FLOG` is a
macro of `logging.h`: it is an event of the trace, and what stands behind it in the source
follows it here. -/
def socket_action (sock : Int) (ev_bitmask : Nat) (rc : Int) (c : https_client_t) :
    https_client_t :=
  { c with
    trace := c.trace ++
      Event.curl_multi_socket_action sock ev_bitmask ::
        (if rc ≠ CURLM_OK then [Event.FLOG] else []) }

/-- The function `sock_cb(loop, w, revents)` for the watcher in slot `w` of `c->fd`; `rc` is
what the transfer engine returns and `msgs` what it has queued when the drain runs. -/
def sock_cb (w revents : Nat) (rc : Int) (msgs : List CURLMsg) (c : https_client_t) :
    https_client_t :=
  check_multi_info msgs
    (socket_action ((c.fd w).fd : Int)
      ((if revents &&& EV_READ ≠ 0 then CURL_POLL_IN else 0) |||
       (if revents &&& EV_WRITE ≠ 0 then CURL_POLL_OUT else 0)) rc c)

/-- The function `timer_cb(loop, w, revents)`. -/
def timer_cb (rc : Int) (msgs : List CURLMsg) (c : https_client_t) : https_client_t :=
  check_multi_info msgs (socket_action CURL_SOCKET_TIMEOUT 0 rc c)

/-- The event mask `multi_sock_cb` hands to `ev_io_init` for a request `what`. -/
def watch_events (what : Nat) : Nat :=
  (if what &&& CURL_POLL_IN ≠ 0 then EV_READ else 0) |||
    (if what &&& CURL_POLL_OUT ≠ 0 then EV_WRITE else 0)

/-- The function `multi_sock_cb(curl, sock, what, c, sockp)`. -/
def multi_sock_cb (sock what : Nat) (c : https_client_t) : https_client_t :=
  if what = CURL_POLL_REMOVE then
    let c1 := ev_io_stop c sock
    { c1 with fd := setSlot c1.fd sock { c1.fd sock with fd := 0 } }
  else
    let c1 := if (c.fd sock).fd ≠ 0 then ev_io_stop c sock else c
    let c2 := ev_io_init c1 sock sock (watch_events what)
    ev_io_start c2 sock

/-- The function `multi_timer_cb(multi, timeout_ms, c)`; `rc` and `msgs` are what the
transfer engine returns and has queued in the immediate `timer_cb`.  The delay handed to
`ev_timer_init` is the `double` quotient `timeout_ms / 1000.0`, the repeat is `0`. -/
def multi_timer_cb (timeout_ms : Int) (rc : Int) (msgs : List CURLMsg) (c : https_client_t) :
    https_client_t :=
  let c1 := ev_timer_stop c
  if timeout_ms > 0 then
    ev_timer_start (ev_timer_init c1 (ev_tstamp.long_div_1000 timeout_ms) ev_tstamp.zero)
  else timer_cb rc msgs c1

/-! ## Initialisation and shutdown -/

/-- The state after `memset(c, 0, sizeof(*c))`, with `c->fetches = NULL`.  The reactor
record holds the registrations of the engine's own watchers only, so it starts empty. -/
def zeroed : https_client_t :=
  { fetches := []
    fd := fun _ => { active := false, fd := 0, events := 0 }
    timer := { active := false, after := ev_tstamp.zero, repeat_ := ev_tstamp.zero }
    loop := { ios := [], timers := [] }
    trace := [] }

/-- The function `https_client_init`: everything zeroed, then the loop over the
`FD_SETSIZE` slots. -/
def https_client_init (FD_SETSIZE : Nat) : https_client_t :=
  (List.range FD_SETSIZE).foldl
    (fun c i => { c with fd := setSlot c.fd i { c.fd i with fd := 0 } }) zeroed

/-- The first loop of `https_client_cleanup`, `while (c->fetches)`, run for at most `fuel`
iterations; `none` when the fuel does not suffice. -/
def https_client_cleanup_fetches : Nat → https_client_t → Option https_client_t
  | fuel, c =>
    match c.fetches with
    | [] => some c
    | n :: _ =>
      match fuel with
      | 0 => none
      | fuel + 1 => https_client_cleanup_fetches fuel (https_fetch_ctx_cleanup c n.addr)

/-- The second loop of `https_client_cleanup`, over the slots `0 .. FD_SETSIZE - 1`. -/
def https_client_cleanup_fds (FD_SETSIZE : Nat) (c : https_client_t) : https_client_t :=
  (List.range FD_SETSIZE).foldl
    (fun c i => if (c.fd i).fd ≠ 0 then ev_io_stop c i else c) c

/-- The function `https_client_cleanup`. -/
def https_client_cleanup (FD_SETSIZE fuel : Nat) (c : https_client_t) :
    Option https_client_t :=
  match https_client_cleanup_fetches fuel c with
  | none => none
  | some c1 =>
    let c2 := ev_timer_stop (https_client_cleanup_fds FD_SETSIZE c1)
    some { c2 with trace := c2.trace ++ [Event.curl_multi_cleanup] }

/-! ## Runs of the engine -/

/-- What can happen to an initialised engine before it is shut down. -/
inductive Op where
  /-- the caller submits: `https_client_fetch`, with the results of `calloc` and
  `curl_easy_init` -/
  | fetch (new_ctx curl cb cb_data : Nat)
  /-- the transfer engine delivers data for the context at `ctx`: `write_buffer` -/
  | write (ctx : Nat) (a : Arrival)
  /-- the reactor reports the watcher in slot `w` ready, which it does for an active
  watcher only: `sock_cb` -/
  | sock_cb (w revents : Nat) (rc : Int) (msgs : List CURLMsg)
  /-- the reactor reports the timer expired, which it does for an active timer only; a
  timer without repeat is stopped by the reactor before `timer_cb` runs -/
  | timer_cb (rc : Int) (msgs : List CURLMsg)
  /-- the transfer engine asks for a socket to be watched or dropped: `multi_sock_cb` -/
  | multi_sock_cb (sock what : Nat)
  /-- the transfer engine asks for a wake-up: `multi_timer_cb` -/
  | multi_timer_cb (timeout_ms : Int) (rc : Int) (msgs : List CURLMsg)

/-- One step of a run. -/
def step (c : https_client_t) : Op → https_client_t
  | Op.fetch new_ctx curl cb cb_data => https_client_fetch c new_ctx curl cb cb_data
  | Op.write ctx a =>
    { c with fetches := c.fetches.map fun x =>
        if x.addr = ctx then (write_buffer a.heap a.buf a.size a.nmemb x).1 else x }
  | Op.sock_cb w revents rc msgs =>
    if (c.fd w).active then sock_cb w revents rc msgs c else c
  | Op.timer_cb rc msgs => if c.timer.active then timer_cb rc msgs (ev_timer_stop c) else c
  | Op.multi_sock_cb sock what => multi_sock_cb sock what c
  | Op.multi_timer_cb timeout_ms rc msgs => multi_timer_cb timeout_ms rc msgs c

/-- A run: the steps in order. -/
def run (ops : List Op) (c : https_client_t) : https_client_t :=
  ops.foldl step c

/-- The descriptors of the step lie within the table `c->fd`. -/
def Op.inTable (FD_SETSIZE : Nat) : Op → Prop
  | Op.sock_cb w _ _ _ => w < FD_SETSIZE
  | Op.multi_sock_cb sock _ => sock < FD_SETSIZE
  | _ => True

/-- The step is a socket request for descriptor `d`. -/
def Op.asksFor (d : Nat) : Op → Prop
  | Op.multi_sock_cb sock _ => sock = d
  | _ => False

instance (FD_SETSIZE : Nat) (op : Op) : Decidable (Op.inTable FD_SETSIZE op) :=
  match op with
  | Op.fetch _ _ _ _ => isTrue trivial
  | Op.write _ _ => isTrue trivial
  | Op.sock_cb w _ _ _ => inferInstanceAs (Decidable (w < FD_SETSIZE))
  | Op.timer_cb _ _ => isTrue trivial
  | Op.multi_sock_cb sock _ => inferInstanceAs (Decidable (sock < FD_SETSIZE))
  | Op.multi_timer_cb _ _ _ => isTrue trivial

instance (d : Nat) (op : Op) : Decidable (Op.asksFor d op) :=
  match op with
  | Op.fetch _ _ _ _ => isFalse id
  | Op.write _ _ => isFalse id
  | Op.sock_cb _ _ _ _ => isFalse id
  | Op.timer_cb _ _ => isFalse id
  | Op.multi_sock_cb sock _ => inferInstanceAs (Decidable (sock = d))
  | Op.multi_timer_cb _ _ _ => isFalse id

/-- The states of an engine with a table of `FD_SETSIZE` slots: what a run from
`https_client_init` arrives at. -/
def Reachable (FD_SETSIZE : Nat) (c : https_client_t) : Prop :=
  ∃ ops : List Op, (∀ op ∈ ops, Op.inTable FD_SETSIZE op) ∧
    c = run ops (https_client_init FD_SETSIZE)

/-! ## Reading states and traces -/

/-- The reactor's registrations for descriptor `d`. -/
def subscriptions (d : Nat) (c : https_client_t) : List IoSub :=
  c.loop.ios.filter fun s => decide (s.fd = d)

/-- The callback invocations of a trace, in order. -/
def callbacks : List Event → List https_fetch_ctx
  | [] => []
  | Event.callback ctx _ :: rest => ctx :: callbacks rest
  | _ :: rest => callbacks rest

/-- The submissions of a run, in order: address, handle, callback, callback state. -/
def submitted : List Op → List (Nat × Nat × Nat × Nat)
  | [] => []
  | Op.fetch new_ctx curl cb cb_data :: rest => (new_ctx, curl, cb, cb_data) :: submitted rest
  | _ :: rest => submitted rest

/-- The events which completing the context `x` adds to the trace when the registry is
`fetches` at that moment. -/
def completion (x : https_fetch_ctx) (fetches : List https_fetch_ctx) : List Event :=
  [Event.curl_multi_remove_handle x.curl, Event.curl_easy_cleanup x.curl,
   Event.callback x fetches]

/-- The events of the first loop of `https_client_cleanup` on a registry. -/
def cleanupTrace : List https_fetch_ctx → List Event
  | [] => []
  | n :: rest => completion n (n :: rest) ++ cleanupTrace rest

/-- What a submission hands over and a context keeps for life: its address, its handle,
the callback and the callback state. -/
def ident (x : https_fetch_ctx) : Nat × Nat × Nat × Nat :=
  (x.addr, x.curl, x.cb, x.cb_data)

/-- Everyone who was submitted and whom the trace or the registry knows of: the contexts
whose callback has run, then the registered ones. -/
def everyone (c : https_client_t) : List https_fetch_ctx :=
  callbacks c.trace ++ c.fetches

/-- The allocator and the transfer engine hand a submission an address and a handle which
no registered context has. -/
def Op.fresh (c : https_client_t) : Op → Prop
  | Op.fetch new_ctx curl _ _ =>
    new_ctx ∉ c.fetches.map (fun y => y.addr) ∧ curl ∉ c.fetches.map (fun y => y.curl)
  | _ => True

/-- Every submission of the run gets a fresh address and a fresh handle. -/
def FreshRun : https_client_t → List Op → Prop
  | _, [] => True
  | c, op :: rest => Op.fresh c op ∧ FreshRun (step c op) rest

/-- The reactor holds the watcher of slot `d` exactly when libev has it flagged active,
and then once, for descriptor `d`. -/
def Linked (d : Nat) (c : https_client_t) : Prop :=
  c.loop.ios.filter (fun s => decide (s.w = d)) =
    if (c.fd d).active then [{ w := d, fd := d, events := (c.fd d).events }] else []

/-- The slot `d` is marked (`c->fd[d].fd != 0`) exactly when its watcher is active. -/
def Marked (d : Nat) (c : https_client_t) : Prop :=
  (c.fd d).active = true ↔ (c.fd d).fd ≠ 0

/-- What holds of the watchers in every state of a run: each registration is for the
descriptor its slot stands for and lies within the table; every slot but slot 0 is linked
and marked consistently; the reactor holds the timer exactly when it is flagged active. -/
def Inv (FD_SETSIZE : Nat) (c : https_client_t) : Prop :=
  (∀ s ∈ c.loop.ios, s.fd = s.w ∧ s.w < FD_SETSIZE) ∧
  (∀ d, 0 < d → Linked d c ∧ Marked d c) ∧
  c.loop.timers =
    if c.timer.active then [{ after := c.timer.after, repeat_ := c.timer.repeat_ }] else []

/-! ## `write_buffer` -/

theorem set_last_zero (X : List Byte) (x : Byte) :
    (X ++ [x]).set X.length 0 = X ++ [0] := by
  induction X with
  | nil => rfl
  | cons a t ih => simp [List.set, ih]

theorem singleton_of_length_one (l : List Byte) (h : l.length = 1) : ∃ x, l = [x] := by
  match l, h with
  | [x], _ => exact ⟨x, rfl⟩

theorem memcpy_into_realloc (B tl junk D : List Byte) (k : Nat) :
    ∃ x, memcpy ((B ++ tl ++ junk ++ List.replicate (B.length + k + 1) 0).take
      (B.length + k + 1)) B.length D k = B ++ D.take k ++ [x] := by
  unfold memcpy
  have h1 : ((B ++ tl ++ junk ++ List.replicate (B.length + k + 1) 0).take
      (B.length + k + 1)).take B.length = B := by
    rw [List.take_take]
    have hmin : min B.length (B.length + k + 1) = B.length := by omega
    rw [hmin]
    simp [List.append_assoc, List.take_append_eq_append_take]
  have h2 : (((B ++ tl ++ junk ++ List.replicate (B.length + k + 1) 0).take
      (B.length + k + 1)).drop (B.length + k)).length = 1 := by
    simp
    omega
  obtain ⟨x, hx⟩ := singleton_of_length_one _ h2
  exact ⟨x, by rw [h1, hx]⟩

theorem write_buffer_ok (ctx : https_fetch_ctx) (B D junk : List Byte) (size nmemb : Nat)
    (hlen : ctx.buflen = B.length)
    (hbuf : (ctx.buf = none ∧ B = []) ∨ ∃ tl, ctx.buf = some (B ++ tl))
    (hD : D.length = size * nmemb) :
    write_buffer (some junk) D size nmemb ctx =
      ({ ctx with buf := some (B ++ D ++ [0]), buflen := B.length + size * nmemb },
        size * nmemb) := by
  have key : ∀ tl : List Byte,
      (memcpy ((B ++ tl ++ junk ++ List.replicate (B.length + size * nmemb + 1) 0).take
        (B.length + size * nmemb + 1)) B.length D (size * nmemb)).set
        (B.length + size * nmemb) 0 = B ++ D ++ [0] := by
    intro tl
    obtain ⟨x, hx⟩ := memcpy_into_realloc B tl junk D (size * nmemb)
    rw [hx, ← hD, List.take_length]
    have hl : B.length + D.length = (B ++ D).length := by simp
    rw [hl]
    exact set_last_zero (B ++ D) x
  rcases hbuf with ⟨hnone, hB⟩ | ⟨tl, hsome⟩
  · have k0 := key []
    simp only [List.append_nil] at k0
    simp only [write_buffer, realloc, hnone, hlen, Option.getD_none]
    subst hB
    simp only [List.nil_append] at k0 ⊢
    rw [k0]
  · have k1 := key tl
    simp only [write_buffer, realloc, hsome, hlen, Option.getD_some]
    rw [k1]

theorem write_buffer_fails (ctx : https_fetch_ctx) (D : List Byte) (size nmemb : Nat) :
    write_buffer none D size nmemb ctx = (ctx, 0) := by
  simp [write_buffer, realloc]

theorem write_all_ok (arrivals : List Arrival) :
    ∀ (ctx : https_fetch_ctx) (B : List Byte),
      ctx.buflen = B.length → ((ctx.buf = none ∧ B = []) ∨ ctx.buf = some (B ++ [0])) →
      (∀ a ∈ arrivals, a.heap ≠ none ∧ a.buf.length = a.size * a.nmemb) →
      (write_all arrivals ctx).buflen = (B ++ (arrivals.map fun a => a.buf).flatten).length ∧
      (arrivals ≠ [] →
        (write_all arrivals ctx).buf = some (B ++ (arrivals.map fun a => a.buf).flatten ++ [0])) := by
  induction arrivals with
  | nil =>
    intro ctx B hlen _ _
    simp [write_all, hlen]
  | cons a rest ih =>
    intro ctx B hlen hbuf hall
    have ha := hall a (List.mem_cons_self _ _)
    obtain ⟨junk, hj⟩ := Option.ne_none_iff_exists'.mp ha.1
    have hstep := write_buffer_ok ctx B a.buf junk a.size a.nmemb hlen
      (hbuf.imp id fun h => ⟨[0], h⟩) ha.2
    have hrest := ih (write_buffer a.heap a.buf a.size a.nmemb ctx).1 (B ++ a.buf)
      (by rw [hj, hstep]; simp [ha.2])
      (by rw [hj, hstep]; exact Or.inr rfl)
      (fun b hb => hall b (List.mem_cons_of_mem _ hb))
    simp only [write_all, List.map_cons, List.flatten_cons]
    refine ⟨by rw [hrest.1]; simp [List.append_assoc], fun _ => ?_⟩
    by_cases hr : rest = []
    · subst hr
      simp [write_all, hj, hstep]
    · rw [hrest.2 hr]
      simp [List.append_assoc]

/-! ## The registry -/

theorem callbacks_append (a b : List Event) :
    callbacks (a ++ b) = callbacks a ++ callbacks b := by
  induction a with
  | nil => rfl
  | cons e t ih => cases e <;> simp [callbacks, ih]

theorem callbacks_completion (x : https_fetch_ctx) (l : List https_fetch_ctx) :
    callbacks (completion x l) = [x] := rfl

theorem walk_effect (client : https_client_t) (ctx : Nat) :
    ∀ (cur visited : List https_fetch_ctx),
      (https_fetch_ctx_cleanup_walk client ctx visited cur = client ∧
        ∀ x ∈ cur, x.addr ≠ ctx) ∨
      ∃ pre x post, cur = pre ++ x :: post ∧ x.addr = ctx ∧ (∀ y ∈ pre, y.addr ≠ ctx) ∧
        https_fetch_ctx_cleanup_walk client ctx visited cur =
          { client with
            trace := client.trace ++ completion x client.fetches
            fetches := visited ++ pre ++ post } := by
  intro cur
  induction cur with
  | nil => intro visited; exact Or.inl ⟨rfl, by simp⟩
  | cons a rest ih =>
    intro visited
    by_cases h : a.addr = ctx
    · refine Or.inr ⟨[], a, rest, rfl, h, by simp, ?_⟩
      simp [https_fetch_ctx_cleanup_walk, h, completion]
    · rcases ih (visited ++ [a]) with ⟨heq, hne⟩ | ⟨pre, x, post, hcur, hx, hpre, heq⟩
      · refine Or.inl ⟨?_, ?_⟩
        · simp only [https_fetch_ctx_cleanup_walk, h, if_false]
          exact heq
        · intro y hy
          rcases List.mem_cons.mp hy with rfl | hy
          · exact h
          · exact hne y hy
      · refine Or.inr ⟨a :: pre, x, post, by simp [hcur], hx, ?_, ?_⟩
        · intro y hy
          rcases List.mem_cons.mp hy with rfl | hy
          · exact h
          · exact hpre y hy
        · simp only [https_fetch_ctx_cleanup_walk, h, if_false]
          rw [heq]
          simp [List.append_assoc]

theorem cleanup_effect (c : https_client_t) (p : Nat) :
    (https_fetch_ctx_cleanup c p = c ∧ ∀ x ∈ c.fetches, x.addr ≠ p) ∨
    ∃ pre x post, c.fetches = pre ++ x :: post ∧ x.addr = p ∧ (∀ y ∈ pre, y.addr ≠ p) ∧
      https_fetch_ctx_cleanup c p =
        { c with trace := c.trace ++ completion x c.fetches, fetches := pre ++ post } := by
  have h := walk_effect c p c.fetches []
  simpa [https_fetch_ctx_cleanup] using h

theorem cleanup_head (c : https_client_t) (n : https_fetch_ctx)
    (rest : List https_fetch_ctx) (h : c.fetches = n :: rest) :
    https_fetch_ctx_cleanup c n.addr =
      { c with trace := c.trace ++ completion n (n :: rest), fetches := rest } := by
  simp [https_fetch_ctx_cleanup, h, https_fetch_ctx_cleanup_walk, completion]

/-- In a registry of distinct addresses the walk stops at the very node it is given. -/
theorem cleanup_of_mem (c : https_client_t) (pre post : List https_fetch_ctx)
    (x : https_fetch_ctx) (h : c.fetches = pre ++ x :: post)
    (hA : (c.fetches.map fun y => y.addr).Nodup) :
    https_fetch_ctx_cleanup c x.addr =
      { c with trace := c.trace ++ completion x c.fetches, fetches := pre ++ post } := by
  have hskip : ∀ (l v : List https_fetch_ctx), (∀ y ∈ l, y.addr ≠ x.addr) →
      https_fetch_ctx_cleanup_walk c x.addr v (l ++ x :: post) =
        { c with trace := c.trace ++ completion x c.fetches, fetches := v ++ l ++ post } := by
    intro l
    induction l with
    | nil => intro v _; simp [https_fetch_ctx_cleanup_walk, completion]
    | cons a t ih =>
      intro v hl
      have ha : a.addr ≠ x.addr := hl a (List.mem_cons_self _ _)
      rw [List.cons_append, https_fetch_ctx_cleanup_walk, if_neg ha,
        ih (v ++ [a]) fun y hy => hl y (List.mem_cons_of_mem _ hy)]
      simp [List.append_assoc]
  have hne : ∀ y ∈ pre, y.addr ≠ x.addr := by
    intro y hy heq
    rw [h, List.map_append, List.map_cons] at hA
    have hd := (List.nodup_append.mp hA).2.2
    exact hd (List.mem_map.mpr ⟨y, hy, rfl⟩)
      (by rw [heq]; exact List.mem_cons_self _ _)
  unfold https_fetch_ctx_cleanup
  have := hskip pre [] hne
  rw [h] at this ⊢
  simpa using this

theorem find_skip (c : https_client_t) (n : https_fetch_ctx)
    (post : List https_fetch_ctx) :
    ∀ l : List https_fetch_ctx, (∀ y ∈ l, y.curl ≠ n.curl) →
      check_multi_info_find c n.curl (l ++ n :: post) = https_fetch_ctx_cleanup c n.addr := by
  intro l
  induction l with
  | nil => intro _; simp [check_multi_info_find]
  | cons a t ih =>
    intro hl
    have ha : a.curl ≠ n.curl := hl a (List.mem_cons_self _ _)
    rw [List.cons_append, check_multi_info_find, if_neg ha,
      ih fun y hy => hl y (List.mem_cons_of_mem _ hy)]

theorem find_none (c : https_client_t) (h : Nat) :
    ∀ l : List https_fetch_ctx, (∀ y ∈ l, y.curl ≠ h) → check_multi_info_find c h l = c := by
  intro l
  induction l with
  | nil => intro _; rfl
  | cons a t ih =>
    intro hl
    have ha : a.curl ≠ h := hl a (List.mem_cons_self _ _)
    rw [check_multi_info_find, if_neg ha, ih fun y hy => hl y (List.mem_cons_of_mem _ hy)]

theorem find_is_cleanup (c : https_client_t) (h : Nat) :
    ∀ l : List https_fetch_ctx,
      check_multi_info_find c h l = c ∨
      ∃ p, check_multi_info_find c h l = https_fetch_ctx_cleanup c p := by
  intro l
  induction l with
  | nil => exact Or.inl rfl
  | cons a t ih =>
    by_cases ha : a.curl = h
    · exact Or.inr ⟨a.addr, by simp [check_multi_info_find, ha]⟩
    · simpa [check_multi_info_find, ha] using ih

/-- Whatever relation is reflexive, transitive and holds across one
`https_fetch_ctx_cleanup` holds across a drain. -/
theorem drain_induct (R : https_client_t → https_client_t → Prop)
    (hrefl : ∀ c, R c c) (htrans : ∀ a b c, R a b → R b c → R a c)
    (hstep : ∀ c p, R c (https_fetch_ctx_cleanup c p)) :
    ∀ (msgs : List CURLMsg) (c : https_client_t), R c (check_multi_info msgs c) := by
  intro msgs
  induction msgs with
  | nil => intro c; exact hrefl c
  | cons m rest ih =>
    intro c
    by_cases hm : m.msg = CURLMSG_DONE
    · simp only [check_multi_info, hm, if_true]
      rcases find_is_cleanup c m.easy_handle c.fetches with heq | ⟨p, heq⟩
      · rw [heq]; exact ih c
      · rw [heq]; exact htrans _ _ _ (hstep c p) (ih _)
    · simp only [check_multi_info, hm, if_false]
      exact ih c

theorem cleanup_frame (c : https_client_t) (p : Nat) :
    (https_fetch_ctx_cleanup c p).fd = c.fd ∧ (https_fetch_ctx_cleanup c p).timer = c.timer ∧
      (https_fetch_ctx_cleanup c p).loop = c.loop := by
  rcases cleanup_effect c p with ⟨heq, _⟩ | ⟨pre, x, post, _, _, _, heq⟩ <;> rw [heq] <;> simp

theorem drain_frame (msgs : List CURLMsg) (c : https_client_t) :
    (check_multi_info msgs c).fd = c.fd ∧ (check_multi_info msgs c).timer = c.timer ∧
      (check_multi_info msgs c).loop = c.loop :=
  drain_induct (fun a b => b.fd = a.fd ∧ b.timer = a.timer ∧ b.loop = a.loop)
    (fun _ => ⟨rfl, rfl, rfl⟩)
    (fun _ _ _ h1 h2 => ⟨h2.1.trans h1.1, h2.2.1.trans h1.2.1, h2.2.2.trans h1.2.2⟩)
    cleanup_frame msgs c

theorem cleanup_everyone (c : https_client_t) (p : Nat) :
    (everyone (https_fetch_ctx_cleanup c p)).Perm (everyone c) := by
  rcases cleanup_effect c p with ⟨heq, _⟩ | ⟨pre, x, post, hf, _, _, heq⟩
  · rw [heq]
  · rw [heq]
    simp only [everyone, callbacks_append, callbacks_completion, hf]
    rw [List.perm_iff_count]
    intro a
    simp only [List.count_append, List.count_cons, List.count_nil]
    omega

theorem drain_everyone (msgs : List CURLMsg) (c : https_client_t) :
    (everyone (check_multi_info msgs c)).Perm (everyone c) :=
  drain_induct (fun a b => (everyone b).Perm (everyone a)) (fun _ => List.Perm.refl _)
    (fun _ _ _ h1 h2 => h2.trans h1) cleanup_everyone msgs c

theorem drain_empty_registry (msgs : List CURLMsg) :
    ∀ c : https_client_t, c.fetches = [] → check_multi_info msgs c = c := by
  induction msgs with
  | nil => intro c _; rfl
  | cons m rest ih =>
    intro c hc
    by_cases hm : m.msg = CURLMSG_DONE
    · simp only [check_multi_info, hm, if_true, hc, check_multi_info_find]
      exact ih c hc
    · simp only [check_multi_info, hm, if_false]
      exact ih c hc

/-! ## The first loop of `https_client_cleanup` -/

theorem cleanup_fetches_result (fuel : Nat) :
    ∀ c : https_client_t, c.fetches.length ≤ fuel →
      https_client_cleanup_fetches fuel c =
        some { c with fetches := [], trace := c.trace ++ cleanupTrace c.fetches } := by
  induction fuel with
  | zero =>
    intro c hc
    have h0 : c.fetches = [] := List.length_eq_zero.mp (Nat.le_zero.mp hc)
    cases c
    simp only at h0
    subst h0
    simp [https_client_cleanup_fetches, cleanupTrace]
  | succ k ih =>
    intro c hc
    cases hf : c.fetches with
    | nil =>
      cases c
      simp only at hf
      subst hf
      simp [https_client_cleanup_fetches, cleanupTrace]
    | cons n rest =>
      rw [https_client_cleanup_fetches]
      simp only [hf]
      rw [cleanup_head c n rest hf, ih]
      · simp [cleanupTrace, List.append_assoc]
      · rw [hf] at hc
        simpa using Nat.le_of_succ_le_succ hc

theorem callbacks_cleanupTrace (l : List https_fetch_ctx) : callbacks (cleanupTrace l) = l := by
  induction l with
  | nil => rfl
  | cons n rest ih => simp [cleanupTrace, callbacks_append, callbacks_completion, ih]

/-! ## The reactor primitives leave the registry and the trace alone -/

@[simp] theorem ev_io_stop_fetches (c : https_client_t) (i : Nat) :
    (ev_io_stop c i).fetches = c.fetches := by
  unfold ev_io_stop; split <;> rfl

@[simp] theorem ev_io_stop_trace (c : https_client_t) (i : Nat) :
    (ev_io_stop c i).trace = c.trace := by
  unfold ev_io_stop; split <;> rfl

@[simp] theorem ev_io_stop_timer (c : https_client_t) (i : Nat) :
    (ev_io_stop c i).timer = c.timer := by
  unfold ev_io_stop; split <;> rfl

@[simp] theorem ev_io_stop_timers (c : https_client_t) (i : Nat) :
    (ev_io_stop c i).loop.timers = c.loop.timers := by
  unfold ev_io_stop; split <;> rfl

@[simp] theorem ev_io_start_fetches (c : https_client_t) (i : Nat) :
    (ev_io_start c i).fetches = c.fetches := by
  unfold ev_io_start; split <;> rfl

@[simp] theorem ev_io_start_trace (c : https_client_t) (i : Nat) :
    (ev_io_start c i).trace = c.trace := by
  unfold ev_io_start; split <;> rfl

@[simp] theorem ev_io_start_timer (c : https_client_t) (i : Nat) :
    (ev_io_start c i).timer = c.timer := by
  unfold ev_io_start; split <;> rfl

@[simp] theorem ev_io_start_timers (c : https_client_t) (i : Nat) :
    (ev_io_start c i).loop.timers = c.loop.timers := by
  unfold ev_io_start; split <;> rfl

@[simp] theorem ev_timer_stop_fetches (c : https_client_t) :
    (ev_timer_stop c).fetches = c.fetches := by
  unfold ev_timer_stop; split <;> rfl

@[simp] theorem ev_timer_stop_trace (c : https_client_t) :
    (ev_timer_stop c).trace = c.trace := by
  unfold ev_timer_stop; split <;> rfl

@[simp] theorem ev_timer_stop_fd (c : https_client_t) : (ev_timer_stop c).fd = c.fd := by
  unfold ev_timer_stop; split <;> rfl

@[simp] theorem ev_timer_stop_ios (c : https_client_t) :
    (ev_timer_stop c).loop.ios = c.loop.ios := by
  unfold ev_timer_stop; split <;> rfl

@[simp] theorem ev_timer_start_fetches (c : https_client_t) :
    (ev_timer_start c).fetches = c.fetches := by
  unfold ev_timer_start; split <;> rfl

@[simp] theorem ev_timer_start_trace (c : https_client_t) :
    (ev_timer_start c).trace = c.trace := by
  unfold ev_timer_start; split <;> rfl

@[simp] theorem ev_timer_start_fd (c : https_client_t) : (ev_timer_start c).fd = c.fd := by
  unfold ev_timer_start; split <;> rfl

@[simp] theorem ev_timer_start_ios (c : https_client_t) :
    (ev_timer_start c).loop.ios = c.loop.ios := by
  unfold ev_timer_start; split <;> rfl

theorem multi_sock_cb_registry (sock what : Nat) (c : https_client_t) :
    (multi_sock_cb sock what c).fetches = c.fetches ∧
      (multi_sock_cb sock what c).trace = c.trace := by
  unfold multi_sock_cb
  split
  · simp
  · split <;> simp [ev_io_init]

theorem foldl_preserves {α β : Type} (P : β → Prop) (f : β → α → β)
    (h : ∀ b a, P b → P (f b a)) : ∀ (l : List α) (b : β), P b → P (l.foldl f b) := by
  intro l
  induction l with
  | nil => intro b hb; exact hb
  | cons a t ih => intro b hb; exact ih (f b a) (h b a hb)

theorem cleanup_fds_registry (n : Nat) (c : https_client_t) :
    (https_client_cleanup_fds n c).fetches = c.fetches ∧
      (https_client_cleanup_fds n c).trace = c.trace :=
  foldl_preserves (fun b => b.fetches = c.fetches ∧ b.trace = c.trace) _
    (fun b i hb => by
      show (if (b.fd i).fd ≠ 0 then ev_io_stop b i else b).fetches = c.fetches ∧
        (if (b.fd i).fd ≠ 0 then ev_io_stop b i else b).trace = c.trace
      split <;> simpa using hb)
    (List.range n) c ⟨rfl, rfl⟩

theorem https_client_init_eq (n : Nat) : https_client_init n = zeroed := by
  unfold https_client_init
  apply foldl_preserves (fun b => b = zeroed)
  · intro b i hb
    subst hb
    simp only [zeroed, https_client_t.mk.injEq, and_true, true_and]
    funext j
    simp [setSlot]
  · rfl

/-! ## Runs: nobody is lost and nobody is called twice -/

theorem write_buffer_ident (heap : Option (List Byte)) (buf : List Byte) (size nmemb : Nat)
    (x : https_fetch_ctx) : ident (write_buffer heap buf size nmemb x).1 = ident x := by
  unfold write_buffer
  split <;> rfl

theorem submitted_cons (op : Op) (ops : List Op) :
    submitted (op :: ops) = submitted [op] ++ submitted ops := by
  cases op <;> simp [submitted]

theorem socket_action_frame (sock : Int) (m : Nat) (rc : Int) (c : https_client_t) :
    (socket_action sock m rc c).fetches = c.fetches ∧ (socket_action sock m rc c).fd = c.fd ∧
      (socket_action sock m rc c).timer = c.timer ∧ (socket_action sock m rc c).loop = c.loop :=
  ⟨rfl, rfl, rfl, rfl⟩

theorem socket_action_callbacks (sock : Int) (m : Nat) (rc : Int) (c : https_client_t) :
    callbacks (socket_action sock m rc c).trace = callbacks c.trace := by
  unfold socket_action
  split <;> simp [callbacks_append, callbacks]

theorem everyone_socket_action (c : https_client_t) (sock : Int) (m : Nat) (rc : Int) :
    everyone (socket_action sock m rc c) = everyone c := by
  simp only [everyone, socket_action_callbacks, (socket_action_frame sock m rc c).1]

theorem everyone_of_registry (c c' : https_client_t) (hf : c'.fetches = c.fetches)
    (ht : c'.trace = c.trace) : everyone c' = everyone c := by
  simp [everyone, hf, ht]

theorem step_everyone (c : https_client_t) (op : Op) :
    ((everyone (step c op)).map ident).Perm ((everyone c).map ident ++ submitted [op]) := by
  cases op with
  | fetch new_ctx curl cb cb_data =>
    simp only [step, https_client_fetch, https_fetch_ctx_init, everyone, callbacks_append,
      callbacks, submitted, List.append_nil, List.map_append, List.map_cons, ident]
    rw [List.perm_iff_count]
    intro a
    simp only [List.count_append, List.count_cons, List.count_nil]
    omega
  | write ctx a =>
    have hmap : (c.fetches.map fun x =>
        if x.addr = ctx then (write_buffer a.heap a.buf a.size a.nmemb x).1 else x).map ident =
        c.fetches.map ident := by
      rw [List.map_map]
      apply List.map_congr_left
      intro x _
      simp only [Function.comp]
      split
      · exact write_buffer_ident _ _ _ _ x
      · rfl
    simp only [step, everyone, submitted, List.append_nil, List.map_append, hmap]
    exact List.Perm.refl _
  | sock_cb w revents rc msgs =>
    simp only [step, submitted, List.append_nil]
    split
    · unfold sock_cb
      exact ((drain_everyone msgs _).trans
        (by rw [everyone_socket_action])).map ident
    · exact List.Perm.refl _
  | timer_cb rc msgs =>
    simp only [step, submitted, List.append_nil]
    split
    · unfold timer_cb
      refine ((drain_everyone msgs _).trans ?_).map ident
      rw [everyone_socket_action,
        everyone_of_registry c (ev_timer_stop c) (by simp) (by simp)]
    · exact List.Perm.refl _
  | multi_sock_cb sock what =>
    simp only [step, submitted, List.append_nil]
    rw [everyone_of_registry c _ (multi_sock_cb_registry sock what c).1
      (multi_sock_cb_registry sock what c).2]
  | multi_timer_cb timeout_ms rc msgs =>
    simp only [step, submitted, List.append_nil, multi_timer_cb]
    split
    · rw [everyone_of_registry c
        (ev_timer_start (ev_timer_init (ev_timer_stop c)
          (ev_tstamp.long_div_1000 timeout_ms) ev_tstamp.zero))
        (by simp [ev_timer_init]) (by simp [ev_timer_init])]
    · unfold timer_cb
      refine ((drain_everyone msgs _).trans ?_).map ident
      rw [everyone_socket_action,
        everyone_of_registry c (ev_timer_stop c) (by simp) (by simp)]

theorem run_everyone (ops : List Op) :
    ∀ c : https_client_t,
      ((everyone (run ops c)).map ident).Perm ((everyone c).map ident ++ submitted ops) := by
  induction ops with
  | nil => intro c; simp [run, submitted]
  | cons op rest ih =>
    intro c
    rw [submitted_cons, ← List.append_assoc]
    exact (ih (step c op)).trans ((step_everyone c op).append_right _)

theorem cleanup_result (FD_SETSIZE fuel : Nat) (c : https_client_t)
    (hfuel : c.fetches.length ≤ fuel) :
    ∃ c', https_client_cleanup FD_SETSIZE fuel c = some c' ∧ c'.fetches = [] ∧
      callbacks c'.trace = callbacks c.trace ++ c.fetches := by
  unfold https_client_cleanup
  rw [cleanup_fetches_result fuel c hfuel]
  refine ⟨_, rfl, ?_, ?_⟩
  · simp [(cleanup_fds_registry FD_SETSIZE _).1]
  · simp [(cleanup_fds_registry FD_SETSIZE _).2, callbacks_append, callbacks_cleanupTrace,
      callbacks]

theorem cleanup_trace_of_mem (c : https_client_t) (x : https_fetch_ctx)
    (hx : x ∈ c.fetches) (hA : (c.fetches.map fun y => y.addr).Nodup) :
    (https_fetch_ctx_cleanup c x.addr).trace = c.trace ++ completion x c.fetches := by
  obtain ⟨pre, post, hf⟩ := List.append_of_mem hx
  rw [cleanup_of_mem c pre post x hf hA]

/-! ## Registered contexts are distinct nodes with distinct handles -/

theorem cleanup_sublist (c : https_client_t) (p : Nat) :
    (https_fetch_ctx_cleanup c p).fetches.Sublist c.fetches := by
  rcases cleanup_effect c p with ⟨heq, _⟩ | ⟨pre, x, post, hf, _, _, heq⟩
  · rw [heq]
  · rw [heq, hf]
    exact (List.Sublist.refl pre).append (List.sublist_cons_self x post)

theorem drain_sublist (msgs : List CURLMsg) (c : https_client_t) :
    (check_multi_info msgs c).fetches.Sublist c.fetches :=
  drain_induct (fun a b => b.fetches.Sublist a.fetches) (fun _ => List.Sublist.refl _)
    (fun _ _ _ h1 h2 => h2.trans h1) cleanup_sublist msgs c

theorem step_nodup (c : https_client_t) (op : Op) (hfresh : Op.fresh c op)
    (hA : (c.fetches.map fun y => y.addr).Nodup)
    (hH : (c.fetches.map fun y => y.curl).Nodup) :
    ((step c op).fetches.map fun y => y.addr).Nodup ∧
      ((step c op).fetches.map fun y => y.curl).Nodup := by
  have hsub : ∀ c' : https_client_t, c'.fetches.Sublist c.fetches →
      (c'.fetches.map fun y => y.addr).Nodup ∧ (c'.fetches.map fun y => y.curl).Nodup :=
    fun c' h => ⟨hA.sublist (h.map _), hH.sublist (h.map _)⟩
  cases op with
  | fetch new_ctx curl cb cb_data =>
    simp only [step, https_client_fetch, https_fetch_ctx_init, List.map_cons]
    exact ⟨List.nodup_cons.mpr ⟨hfresh.1, hA⟩, List.nodup_cons.mpr ⟨hfresh.2, hH⟩⟩
  | write ctx a =>
    have hkeep : ∀ x : https_fetch_ctx,
        ident (if x.addr = ctx then (write_buffer a.heap a.buf a.size a.nmemb x).1 else x) =
          ident x := by
      intro x
      split
      · exact write_buffer_ident _ _ _ _ x
      · rfl
    simp only [step, List.map_map]
    constructor
    · have : ((fun y : https_fetch_ctx => y.addr) ∘ fun x =>
          if x.addr = ctx then (write_buffer a.heap a.buf a.size a.nmemb x).1 else x) =
          fun y => y.addr := by
        funext x
        exact congrArg (fun k => k.1) (hkeep x)
      rw [this]
      exact hA
    · have : ((fun y : https_fetch_ctx => y.curl) ∘ fun x =>
          if x.addr = ctx then (write_buffer a.heap a.buf a.size a.nmemb x).1 else x) =
          fun y => y.curl := by
        funext x
        exact congrArg (fun k => k.2.1) (hkeep x)
      rw [this]
      exact hH
  | sock_cb w revents rc msgs =>
    simp only [step]
    split
    · exact hsub _ (drain_sublist msgs _)
    · exact ⟨hA, hH⟩
  | timer_cb rc msgs =>
    simp only [step]
    split
    · exact hsub _ ((drain_sublist msgs _).trans (by simp [socket_action]))
    · exact ⟨hA, hH⟩
  | multi_sock_cb sock what =>
    simp only [step, (multi_sock_cb_registry sock what c).1]
    exact ⟨hA, hH⟩
  | multi_timer_cb timeout_ms rc msgs =>
    simp only [step, multi_timer_cb]
    split
    · simp only [ev_timer_start_fetches, ev_timer_init, ev_timer_stop_fetches]
      exact ⟨hA, hH⟩
    · exact hsub _ ((drain_sublist msgs _).trans (by simp [socket_action]))

/-- Along a run whose submissions get fresh addresses and fresh handles the registered
contexts keep distinct addresses and distinct handles; this is so in particular from
`https_client_init`, where nothing is registered. -/
theorem run_nodup (ops : List Op) :
    ∀ c : https_client_t, FreshRun c ops →
      (c.fetches.map fun y => y.addr).Nodup → (c.fetches.map fun y => y.curl).Nodup →
      ((run ops c).fetches.map fun y => y.addr).Nodup ∧
        ((run ops c).fetches.map fun y => y.curl).Nodup := by
  induction ops with
  | nil => intro c _ hA hH; exact ⟨hA, hH⟩
  | cons op rest ih =>
    intro c hfresh hA hH
    obtain ⟨h1, h2⟩ := step_nodup c op hfresh.1 hA hH
    exact ih (step c op) hfresh.2 h1 h2

/-! ## The claims about the registry and the buffer -/

/-- C1: from `https_client_init`, over every run of submissions, data arrivals, drains and
watcher requests, the number of submissions is the number of callbacks already invoked plus
the length of the registry; `https_client_cleanup` then returns with the registry empty,
the callbacks invoked are, up to order, exactly the submissions, and with distinct handles
each submission has exactly one callback invocation. -/
theorem every_submission_called_back_once (FD_SETSIZE fuel : Nat) (ops : List Op)
    (hfuel : (run ops (https_client_init FD_SETSIZE)).fetches.length ≤ fuel)
    (hdistinct : ((submitted ops).map fun k => k.2.1).Nodup) :
    (submitted ops).length =
        (callbacks (run ops (https_client_init FD_SETSIZE)).trace).length +
          (run ops (https_client_init FD_SETSIZE)).fetches.length ∧
      ∃ c', https_client_cleanup FD_SETSIZE fuel (run ops (https_client_init FD_SETSIZE)) =
          some c' ∧
        c'.fetches = [] ∧
        (callbacks c'.trace).length = (submitted ops).length ∧
        ((callbacks c'.trace).map ident).Perm (submitted ops) ∧
        ∀ k ∈ submitted ops,
          ((callbacks c'.trace).map ident).countP (fun j => decide (j = k)) = 1 := by
  have hrun := run_everyone ops (https_client_init FD_SETSIZE)
  have hinit : everyone (https_client_init FD_SETSIZE) = [] := by
    rw [https_client_init_eq]; rfl
  rw [hinit, List.map_nil, List.nil_append] at hrun
  obtain ⟨c', hc', hempty, hcb⟩ := cleanup_result FD_SETSIZE fuel _ hfuel
  have hperm : ((callbacks c'.trace).map ident).Perm (submitted ops) := by
    rw [hcb]; exact hrun
  refine ⟨?_, c', hc', hempty, ?_, hperm, ?_⟩
  · have := hrun.length_eq
    simp only [everyone, List.length_map, List.length_append] at this
    omega
  · simpa using hperm.length_eq
  · intro k hk
    exact (hperm.countP_eq _).trans
      (List.count_eq_one_of_mem (List.Nodup.of_map _ hdistinct) hk)

/-- C2: with `K` contexts registered, `https_client_cleanup` returns as soon as it may run
`K` iterations of its first loop; during the call the callbacks of exactly the registered
contexts are invoked, one each, head of the registry first, each with the context as it
stands; the registry is empty afterwards and a later drain invokes nothing. -/
theorem cleanup_completes_all (FD_SETSIZE fuel : Nat) (c : https_client_t)
    (hfuel : c.fetches.length ≤ fuel) :
    ∃ c', https_client_cleanup FD_SETSIZE fuel c = some c' ∧
      callbacks c'.trace = callbacks c.trace ++ c.fetches ∧
      c'.fetches = [] ∧
      ∀ msgs, check_multi_info msgs c' = c' := by
  obtain ⟨c', hc', hempty, hcb⟩ := cleanup_result FD_SETSIZE fuel c hfuel
  exact ⟨c', hc', hcb, hempty, fun msgs => drain_empty_registry msgs c' hempty⟩

/-- C3, as the code has it: `https_fetch_ctx_cleanup` invokes the callback of `x` while `x`
is still linked, the registry at that moment being the registry from before the call; `x` is
unlinked after the callback has returned, and the registry the function leaves behind does
not contain `x`. -/
theorem callback_runs_before_unlink (client : https_client_t) (x : https_fetch_ctx)
    (hx : x ∈ client.fetches) (hA : (client.fetches.map fun y => y.addr).Nodup) :
    (https_fetch_ctx_cleanup client x.addr).trace =
        client.trace ++
          [Event.curl_multi_remove_handle x.curl, Event.curl_easy_cleanup x.curl,
           Event.callback x client.fetches] ∧
      (https_fetch_ctx_cleanup client x.addr).fetches = client.fetches.erase x ∧
      x ∉ (https_fetch_ctx_cleanup client x.addr).fetches := by
  obtain ⟨pre, post, hf⟩ := List.append_of_mem hx
  have hnd : client.fetches.Nodup := List.Nodup.of_map _ hA
  have herase : client.fetches.erase x = pre ++ post := by
    rw [hf] at hnd ⊢
    have hxpre : x ∉ pre := fun hmem =>
      (List.nodup_append.mp hnd).2.2 hmem (List.mem_cons_self _ _)
    rw [List.erase_append_right _ hxpre, List.erase_cons_head]
  rw [cleanup_of_mem client pre post x hf hA]
  refine ⟨rfl, herase.symm, ?_⟩
  show x ∉ pre ++ post
  rw [← herase]
  exact hnd.not_mem_erase

/-- C3, the claim as written fails: with one context registered, the registry at the
moment of its callback is the list holding that very context. -/
theorem callback_sees_own_context :
    (https_fetch_ctx_cleanup { zeroed with fetches := [⟨16, 7, 1, 2, none, 0⟩] } 16).trace =
        [Event.curl_multi_remove_handle 7, Event.curl_easy_cleanup 7,
         Event.callback ⟨16, 7, 1, 2, none, 0⟩ [⟨16, 7, 1, 2, none, 0⟩]] ∧
      (⟨16, 7, 1, 2, none, 0⟩ : https_fetch_ctx) ∈
        ([⟨16, 7, 1, 2, none, 0⟩] : List https_fetch_ctx) := by
  decide

/-- C4: a successful `write_buffer` on a context holding the body `B` returns the chunk
size, makes `buflen` the length of `B` plus the chunk size and leaves `buf` holding `B`,
the chunk and one zero byte, the zero at index `buflen`; so a sequence of successful
arrivals on a fresh context leaves the chunks concatenated in order, `buflen` the sum of
their sizes, and a zero byte behind the last byte. -/
theorem write_buffer_accumulates (ctx : https_fetch_ctx) (B D junk : List Byte)
    (size nmemb : Nat) (hlen : ctx.buflen = B.length)
    (hbuf : (ctx.buf = none ∧ B = []) ∨ ∃ tl, ctx.buf = some (B ++ tl))
    (hD : D.length = size * nmemb) :
    write_buffer (some junk) D size nmemb ctx =
        ({ ctx with buf := some (B ++ D ++ [0]), buflen := B.length + size * nmemb },
          size * nmemb) ∧
      (B ++ D ++ [0])[B.length + size * nmemb]? = some 0 ∧
      ∀ (arrivals : List Arrival) (fresh : https_fetch_ctx),
        fresh.buf = none → fresh.buflen = 0 →
        (∀ a ∈ arrivals, a.heap ≠ none ∧ a.buf.length = a.size * a.nmemb) →
        (write_all arrivals fresh).buflen = (arrivals.map fun a => a.buf).flatten.length ∧
        (write_all arrivals fresh).buflen = (arrivals.map fun a => a.size * a.nmemb).sum ∧
        (arrivals ≠ [] → (write_all arrivals fresh).buf =
          some ((arrivals.map fun a => a.buf).flatten ++ [0])) := by
  refine ⟨write_buffer_ok ctx B D junk size nmemb hlen hbuf hD, ?_, ?_⟩
  · rw [← hD]
    have hl : B.length + D.length = (B ++ D).length := by simp
    rw [hl, List.getElem?_append_right (Nat.le_refl _)]
    simp
  · intro arrivals fresh hnone hzero hall
    have h := write_all_ok arrivals fresh [] (by simpa using hzero) (Or.inl ⟨hnone, rfl⟩) hall
    simp only [List.nil_append] at h
    refine ⟨h.1, ?_, h.2⟩
    rw [h.1, List.length_flatten, List.map_map]
    congr 1
    apply List.map_congr_left
    intro a ha
    exact (hall a ha).2

/-- C5, as the code has it: when `realloc` fails `write_buffer` returns 0, which differs
from the size of a non-empty chunk, and leaves the context as it is; the partial body is
kept, and the callback later invoked for the context is handed it. -/
theorem write_buffer_failure_keeps_buffer (c : https_client_t) (ctx : https_fetch_ctx)
    (D : List Byte) (size nmemb : Nat) (hctx : ctx ∈ c.fetches)
    (hA : (c.fetches.map fun y => y.addr).Nodup) :
    write_buffer none D size nmemb ctx = (ctx, 0) ∧
      (0 < size * nmemb → (write_buffer none D size nmemb ctx).2 ≠ size * nmemb) ∧
      (step c (Op.write ctx.addr ⟨none, D, size, nmemb⟩)).fetches = c.fetches ∧
      callbacks (https_fetch_ctx_cleanup
        (step c (Op.write ctx.addr ⟨none, D, size, nmemb⟩)) ctx.addr).trace =
        callbacks c.trace ++ [ctx] := by
  have hsame : step c (Op.write ctx.addr ⟨none, D, size, nmemb⟩) = c := by
    have hmap : (c.fetches.map fun x =>
        if x.addr = ctx.addr then (write_buffer none D size nmemb x).1 else x) = c.fetches := by
      conv_rhs => rw [← List.map_id c.fetches]
      apply List.map_congr_left
      intro x _
      simp [write_buffer_fails]
    simp only [step, hmap]
  refine ⟨write_buffer_fails ctx D size nmemb, ?_, by rw [hsame], ?_⟩
  · intro hpos
    rw [write_buffer_fails]
    exact Nat.ne_of_lt hpos
  · rw [hsame, cleanup_trace_of_mem c ctx hctx hA]
    simp [callbacks_append, callbacks]

/-- C5, the claim as written fails: a context holding the two bytes `hi` keeps them when
`realloc` fails on the next chunk, and its callback is handed those two bytes. -/
theorem failed_write_keeps_partial_body :
    write_buffer none [33] 1 1 ⟨16, 7, 1, 2, some [104, 105, 0], 2⟩ =
        (⟨16, 7, 1, 2, some [104, 105, 0], 2⟩, 0) ∧
      callbacks (https_fetch_ctx_cleanup
        (step { zeroed with fetches := [⟨16, 7, 1, 2, some [104, 105, 0], 2⟩] }
          (Op.write 16 ⟨none, [33], 1, 1⟩)) 16).trace =
        [⟨16, 7, 1, 2, some [104, 105, 0], 2⟩] := by
  decide

/-- C10: in a registry of distinct contexts with distinct handles, a `CURLMSG_DONE` for
handle `h` unlinks exactly the context with that handle and invokes its callback once, on
that context as it stands, the others staying in order and untouched; without such a
context neither the registry nor the trace changes. -/
theorem drain_done_completes_only_its_context (c : https_client_t) (h : Nat)
    (hA : (c.fetches.map fun y => y.addr).Nodup)
    (hH : (c.fetches.map fun y => y.curl).Nodup) :
    (∀ pre n post, c.fetches = pre ++ n :: post → n.curl = h →
        (check_multi_info [⟨CURLMSG_DONE, h⟩] c).fetches = pre ++ post ∧
        (check_multi_info [⟨CURLMSG_DONE, h⟩] c).trace =
          c.trace ++ [Event.curl_multi_remove_handle h, Event.curl_easy_cleanup h,
            Event.callback n c.fetches] ∧
        callbacks (check_multi_info [⟨CURLMSG_DONE, h⟩] c).trace = callbacks c.trace ++ [n]) ∧
      ((∀ n ∈ c.fetches, n.curl ≠ h) →
        (check_multi_info [⟨CURLMSG_DONE, h⟩] c).fetches = c.fetches ∧
        (check_multi_info [⟨CURLMSG_DONE, h⟩] c).trace = c.trace) := by
  have hdrain : check_multi_info [⟨CURLMSG_DONE, h⟩] c =
      check_multi_info_find c h c.fetches := by
    simp [check_multi_info]
  refine ⟨?_, ?_⟩
  · intro pre n post hf hn
    have hpre : ∀ y ∈ pre, y.curl ≠ n.curl := by
      intro y hy heq
      rw [hf, List.map_append, List.map_cons] at hH
      exact (List.nodup_append.mp hH).2.2 (List.mem_map.mpr ⟨y, hy, rfl⟩)
        (by rw [heq]; exact List.mem_cons_self _ _)
    subst hn
    rw [hdrain]
    conv_lhs => rw [hf]
    rw [hf, find_skip c n post pre hpre, ← hf, cleanup_of_mem c pre post n hf hA]
    simp [completion, callbacks_append, callbacks]
  · intro hnone
    rw [hdrain, find_none c h c.fetches hnone]
    exact ⟨rfl, rfl⟩

/-! ## The watcher table and the reactor -/

theorem filter_eraseP_self {α : Type} (p : α → Bool) (l : List α) :
    (l.eraseP p).filter p = (l.filter p).tail := by
  induction l with
  | nil => rfl
  | cons a t ih =>
    cases hp : p a
    · simp [List.eraseP_cons, List.filter_cons, hp, ih]
    · simp [List.eraseP_cons, List.filter_cons, hp]

theorem filter_eraseP_other {α : Type} (p q : α → Bool)
    (h : ∀ x, p x = true → q x = false) (l : List α) :
    (l.eraseP p).filter q = l.filter q := by
  induction l with
  | nil => rfl
  | cons a t ih =>
    cases hp : p a
    · simp [List.eraseP_cons, List.filter_cons, hp, ih]
    · simp [List.eraseP_cons, List.filter_cons, hp, h a hp]

theorem ev_io_stop_ios (c : https_client_t) (i : Nat) :
    (ev_io_stop c i).loop.ios =
      if (c.fd i).active then c.loop.ios.eraseP (fun s => decide (s.w = i))
      else c.loop.ios := by
  unfold ev_io_stop; split <;> rfl

theorem ev_io_stop_fd (c : https_client_t) (i j : Nat) :
    (ev_io_stop c i).fd j = if j = i then { c.fd i with active := false } else c.fd j := by
  unfold ev_io_stop
  by_cases ha : (c.fd i).active
  · simp [ha, setSlot]
  · by_cases hj : j = i
    · subst hj
      simp only [ha, if_true]
      cases hs : c.fd j with
      | mk a f e =>
        rw [hs] at ha
        simp only [Bool.not_eq_true] at ha
        simp [ha, hs]
    · simp [ha, hj]

theorem multi_sock_cb_fd (sock what : Nat) (c : https_client_t) (j : Nat) :
    (multi_sock_cb sock what c).fd j =
      if j = sock then
        (if what = CURL_POLL_REMOVE then
          { active := false, fd := 0, events := (c.fd sock).events }
         else { active := true, fd := sock, events := watch_events what })
      else c.fd j := by
  unfold multi_sock_cb
  by_cases hw : what = CURL_POLL_REMOVE
  · by_cases hj : j = sock <;> simp [hw, hj, setSlot, ev_io_stop_fd]
  · by_cases hj : j = sock <;> by_cases hf : (c.fd sock).fd = 0 <;>
      simp [hw, hj, hf, setSlot, ev_io_stop_fd, ev_io_init, ev_io_start]

theorem multi_sock_cb_ios (sock what : Nat) (c : https_client_t) :
    (multi_sock_cb sock what c).loop.ios =
      if what = CURL_POLL_REMOVE then
        (if (c.fd sock).active then c.loop.ios.eraseP (fun s => decide (s.w = sock))
         else c.loop.ios)
      else
        { w := sock, fd := sock, events := watch_events what } ::
          (if (c.fd sock).fd ≠ 0 ∧ (c.fd sock).active = true then
            c.loop.ios.eraseP (fun s => decide (s.w = sock))
           else c.loop.ios) := by
  unfold multi_sock_cb
  by_cases hw : what = CURL_POLL_REMOVE
  · simp [hw, ev_io_stop_ios]
  · by_cases hf : (c.fd sock).fd = 0 <;> by_cases ha : (c.fd sock).active = true <;>
      simp [hw, hf, ha, setSlot, ev_io_stop_ios, ev_io_init, ev_io_start]

theorem multi_sock_cb_timer (sock what : Nat) (c : https_client_t) :
    (multi_sock_cb sock what c).timer = c.timer ∧
      (multi_sock_cb sock what c).loop.timers = c.loop.timers := by
  unfold multi_sock_cb
  split
  · simp
  · split <;> simp [ev_io_init]

theorem eraseP_other_w (d sock : Nat) (hds : d ≠ sock) (l : List IoSub) :
    (l.eraseP fun s => decide (s.w = sock)).filter (fun s => decide (s.w = d)) =
      l.filter fun s => decide (s.w = d) :=
  filter_eraseP_other _ _ (fun x hx => by
    simp only [decide_eq_true_eq] at hx
    simp only [decide_eq_false_iff_not]
    rw [hx]
    exact fun h => hds h.symm) l

theorem multi_sock_cb_inv (FD_SETSIZE sock what : Nat) (c : https_client_t)
    (hsock : sock < FD_SETSIZE) (hI : Inv FD_SETSIZE c) :
    Inv FD_SETSIZE (multi_sock_cb sock what c) := by
  obtain ⟨hreg, hslots, htimer⟩ := hI
  refine ⟨?_, ?_, ?_⟩
  · intro s hs
    rw [multi_sock_cb_ios] at hs
    have hsub : ∀ x ∈ c.loop.ios.eraseP (fun s => decide (s.w = sock)),
        x.fd = x.w ∧ x.w < FD_SETSIZE := fun x hx => hreg x (List.mem_of_mem_eraseP hx)
    split at hs
    · split at hs
      · exact hsub s hs
      · exact hreg s hs
    · rcases List.mem_cons.mp hs with rfl | hs
      · exact ⟨rfl, hsock⟩
      · split at hs
        · exact hsub s hs
        · exact hreg s hs
  · intro d hd
    obtain ⟨hl, hm⟩ := hslots d hd
    unfold Linked Marked at *
    by_cases hds : d = sock
    · subst hds
      rw [multi_sock_cb_ios]
      simp only [multi_sock_cb_fd, if_true]
      by_cases hw : what = CURL_POLL_REMOVE
      · by_cases ha : (c.fd d).active = true
        · simp [hw, ha, filter_eraseP_self, hl]
        · simp [hw, ha, hl]
      · by_cases ha : (c.fd d).active = true
        · have hf : (c.fd d).fd ≠ 0 := hm.mp ha
          simp [hw, ha, hf, filter_eraseP_self, hl]
          omega
        · simp [hw, ha, hl]
          omega
    · rw [multi_sock_cb_ios]
      simp only [multi_sock_cb_fd, hds, if_false]
      refine ⟨?_, hm⟩
      rw [← hl]
      have hne : decide (sock = d) = false := by simpa using fun h => hds h.symm
      have hif : ∀ (P : Prop) [Decidable P],
          (if P then c.loop.ios.eraseP (fun s => decide (s.w = sock)) else c.loop.ios).filter
            (fun s => decide (s.w = d)) = c.loop.ios.filter fun s => decide (s.w = d) := by
        intro P _
        split
        · exact eraseP_other_w d sock hds _
        · rfl
      by_cases hw : what = CURL_POLL_REMOVE
      · simp only [hw, if_true]
        exact hif _
      · simp only [hw, if_false, List.filter_cons, hne]
        exact hif _
  · rw [(multi_sock_cb_timer sock what c).1, (multi_sock_cb_timer sock what c).2]
    exact htimer

theorem inv_of_parts (FD_SETSIZE : Nat) (c c' : https_client_t) (hfd : c'.fd = c.fd)
    (hios : c'.loop.ios = c.loop.ios)
    (hT : c'.loop.timers =
      if c'.timer.active then [{ after := c'.timer.after, repeat_ := c'.timer.repeat_ }]
      else [])
    (hI : Inv FD_SETSIZE c) : Inv FD_SETSIZE c' := by
  obtain ⟨hreg, hslots, _⟩ := hI
  unfold Inv Linked Marked at *
  rw [hfd, hios]
  exact ⟨hreg, hslots, hT⟩

theorem inv_of_frame (FD_SETSIZE : Nat) (c c' : https_client_t) (hfd : c'.fd = c.fd)
    (ht : c'.timer = c.timer) (hl : c'.loop = c.loop) (hI : Inv FD_SETSIZE c) :
    Inv FD_SETSIZE c' := by
  refine inv_of_parts FD_SETSIZE c c' hfd (by rw [hl]) ?_ hI
  rw [ht, hl]
  exact hI.2.2

theorem ev_timer_stop_state (c : https_client_t)
    (hT : c.loop.timers =
      if c.timer.active then [{ after := c.timer.after, repeat_ := c.timer.repeat_ }]
      else []) :
    (ev_timer_stop c).loop.timers = [] ∧ (ev_timer_stop c).timer.active = false := by
  unfold ev_timer_stop
  by_cases ha : c.timer.active = true
  · simp [ha] at hT ⊢
    simp [hT]
  · simp [ha] at hT ⊢
    exact hT

theorem ev_timer_stop_inv (FD_SETSIZE : Nat) (c : https_client_t) (hI : Inv FD_SETSIZE c) :
    Inv FD_SETSIZE (ev_timer_stop c) := by
  have h := ev_timer_stop_state c hI.2.2
  refine inv_of_parts FD_SETSIZE c _ (ev_timer_stop_fd c) (ev_timer_stop_ios c) ?_ hI
  rw [h.1, h.2]
  rfl

theorem rearm_state (c : https_client_t) (after repeat_ : ev_tstamp)
    (hT : c.loop.timers = []) :
    (ev_timer_start (ev_timer_init c after repeat_)).loop.timers =
        [{ after := after, repeat_ := repeat_ }] ∧
      (ev_timer_start (ev_timer_init c after repeat_)).timer =
        { active := true, after := after, repeat_ := repeat_ } := by
  simp [ev_timer_start, ev_timer_init, hT]

theorem timer_cb_inv (FD_SETSIZE : Nat) (rc : Int) (msgs : List CURLMsg) (c : https_client_t)
    (hI : Inv FD_SETSIZE c) : Inv FD_SETSIZE (timer_cb rc msgs c) := by
  obtain ⟨h1, h2, h3⟩ := drain_frame msgs (socket_action CURL_SOCKET_TIMEOUT 0 rc c)
  exact inv_of_frame FD_SETSIZE c _ h1 h2 h3 hI

theorem multi_timer_cb_inv (FD_SETSIZE : Nat) (timeout_ms rc : Int) (msgs : List CURLMsg)
    (c : https_client_t) (hI : Inv FD_SETSIZE c) :
    Inv FD_SETSIZE (multi_timer_cb timeout_ms rc msgs c) := by
  unfold multi_timer_cb
  have hs := ev_timer_stop_state c hI.2.2
  split
  · have hr := rearm_state (ev_timer_stop c) (ev_tstamp.long_div_1000 timeout_ms)
      ev_tstamp.zero hs.1
    refine inv_of_parts FD_SETSIZE c _ (by simp [ev_timer_init]) (by simp [ev_timer_init]) ?_ hI
    rw [hr.1, hr.2]
    rfl
  · exact timer_cb_inv FD_SETSIZE rc msgs _ (ev_timer_stop_inv FD_SETSIZE c hI)

theorem step_inv (FD_SETSIZE : Nat) (c : https_client_t) (op : Op)
    (hop : Op.inTable FD_SETSIZE op) (hI : Inv FD_SETSIZE c) : Inv FD_SETSIZE (step c op) := by
  cases op with
  | fetch new_ctx curl cb cb_data => exact inv_of_frame FD_SETSIZE c _ rfl rfl rfl hI
  | write ctx a => exact inv_of_frame FD_SETSIZE c _ rfl rfl rfl hI
  | sock_cb w revents rc msgs =>
    simp only [step]
    split
    · unfold sock_cb
      obtain ⟨h1, h2, h3⟩ := drain_frame msgs
        (socket_action ((c.fd w).fd : Int)
          ((if revents &&& EV_READ ≠ 0 then CURL_POLL_IN else 0) |||
           (if revents &&& EV_WRITE ≠ 0 then CURL_POLL_OUT else 0)) rc c)
      exact inv_of_frame FD_SETSIZE c _ h1 h2 h3 hI
    · exact hI
  | timer_cb rc msgs =>
    simp only [step]
    split
    · exact timer_cb_inv FD_SETSIZE rc msgs _ (ev_timer_stop_inv FD_SETSIZE c hI)
    · exact hI
  | multi_sock_cb sock what => exact multi_sock_cb_inv FD_SETSIZE sock what c hop hI
  | multi_timer_cb timeout_ms rc msgs =>
    exact multi_timer_cb_inv FD_SETSIZE timeout_ms rc msgs c hI

theorem run_inv (FD_SETSIZE : Nat) (ops : List Op) :
    ∀ c : https_client_t, (∀ op ∈ ops, Op.inTable FD_SETSIZE op) → Inv FD_SETSIZE c →
      Inv FD_SETSIZE (run ops c) := by
  induction ops with
  | nil => intro c _ hI; exact hI
  | cons op rest ih =>
    intro c hops hI
    exact ih (step c op) (fun o ho => hops o (List.mem_cons_of_mem _ ho))
      (step_inv FD_SETSIZE c op (hops op (List.mem_cons_self _ _)) hI)

theorem zeroed_inv (FD_SETSIZE : Nat) : Inv FD_SETSIZE zeroed := by
  refine ⟨?_, ?_, rfl⟩
  · intro s hs
    cases hs
  · intro d _
    exact ⟨rfl, by simp [Marked, zeroed]⟩

theorem reachable_inv (FD_SETSIZE : Nat) (c : https_client_t) (h : Reachable FD_SETSIZE c) :
    Inv FD_SETSIZE c := by
  obtain ⟨ops, hops, rfl⟩ := h
  rw [https_client_init_eq]
  exact run_inv FD_SETSIZE ops zeroed hops (zeroed_inv FD_SETSIZE)

theorem subscriptions_eq (FD_SETSIZE d : Nat) (c : https_client_t)
    (hreg : ∀ s ∈ c.loop.ios, s.fd = s.w ∧ s.w < FD_SETSIZE) :
    subscriptions d c = c.loop.ios.filter fun s => decide (s.w = d) := by
  unfold subscriptions
  apply List.filter_congr
  intro s hs
  rw [(hreg s hs).1]

theorem watch_events_read (what : Nat) :
    watch_events what &&& EV_READ ≠ 0 ↔ what &&& CURL_POLL_IN ≠ 0 := by
  unfold watch_events
  by_cases h1 : what &&& CURL_POLL_IN ≠ 0 <;> by_cases h2 : what &&& CURL_POLL_OUT ≠ 0 <;>
    simp [h1, h2, EV_READ, EV_WRITE]

theorem watch_events_write (what : Nat) :
    watch_events what &&& EV_WRITE ≠ 0 ↔ what &&& CURL_POLL_OUT ≠ 0 := by
  unfold watch_events
  by_cases h1 : what &&& CURL_POLL_IN ≠ 0 <;> by_cases h2 : what &&& CURL_POLL_OUT ≠ 0 <;>
    simp [h1, h2, EV_READ, EV_WRITE]

theorem watch_subscriptions (FD_SETSIZE d what : Nat) (c : https_client_t)
    (hI : Inv FD_SETSIZE c) (hd0 : 0 < d) (hd : d < FD_SETSIZE)
    (hw : what ≠ CURL_POLL_REMOVE) :
    subscriptions d (multi_sock_cb d what c) =
      [{ w := d, fd := d, events := watch_events what }] := by
  have hI' := multi_sock_cb_inv FD_SETSIZE d what c hd hI
  rw [subscriptions_eq FD_SETSIZE d _ hI'.1, (hI'.2.1 d hd0).1]
  simp [multi_sock_cb_fd, hw]

theorem remove_subscriptions (FD_SETSIZE d : Nat) (c : https_client_t)
    (hI : Inv FD_SETSIZE c) (hd0 : 0 < d) (hd : d < FD_SETSIZE) :
    subscriptions d (multi_sock_cb d CURL_POLL_REMOVE c) = [] ∧
      (multi_sock_cb d CURL_POLL_REMOVE c).fd d =
        { active := false, fd := 0, events := (c.fd d).events } := by
  have hI' := multi_sock_cb_inv FD_SETSIZE d CURL_POLL_REMOVE c hd hI
  rw [subscriptions_eq FD_SETSIZE d _ hI'.1, (hI'.2.1 d hd0).1]
  simp [multi_sock_cb_fd]

theorem marked_subscriptions (FD_SETSIZE d : Nat) (c : https_client_t)
    (hI : Inv FD_SETSIZE c) (hd0 : 0 < d) :
    (subscriptions d c).length = if (c.fd d).fd ≠ 0 then 1 else 0 := by
  obtain ⟨hl, hm⟩ := hI.2.1 d hd0
  rw [subscriptions_eq FD_SETSIZE d c hI.1, hl]
  unfold Marked at hm
  by_cases ha : (c.fd d).active = true
  · simp [ha, hm.mp ha]
  · have hf : (c.fd d).fd = 0 := by
      by_contra hne
      exact ha (hm.mpr hne)
    simp [ha, hf]

/-! ## The second loop of `https_client_cleanup` -/

theorem cleanup_fds_succ (n : Nat) (c : https_client_t) :
    https_client_cleanup_fds (n + 1) c =
      if ((https_client_cleanup_fds n c).fd n).fd ≠ 0 then
        ev_io_stop (https_client_cleanup_fds n c) n
      else https_client_cleanup_fds n c := by
  simp [https_client_cleanup_fds, List.range_succ, List.foldl_append]

theorem cleanup_fds_spec (FD_SETSIZE : Nat) (c : https_client_t) (hI : Inv FD_SETSIZE c) :
    ∀ n,
      (∀ s ∈ (https_client_cleanup_fds n c).loop.ios, s ∈ c.loop.ios) ∧
      (∀ d, 0 < d → Linked d (https_client_cleanup_fds n c) ∧
        (((https_client_cleanup_fds n c).fd d).active = true →
          ((https_client_cleanup_fds n c).fd d).fd ≠ 0) ∧
        (d < n → ((https_client_cleanup_fds n c).fd d).active = false)) ∧
      (https_client_cleanup_fds n c).timer = c.timer ∧
      (https_client_cleanup_fds n c).loop.timers = c.loop.timers := by
  intro n
  induction n with
  | zero =>
    refine ⟨fun s hs => hs, ?_, rfl, rfl⟩
    intro d hd
    exact ⟨(hI.2.1 d hd).1, (hI.2.1 d hd).2.mp, fun h => absurd h (Nat.not_lt_zero d)⟩
  | succ n ih =>
    obtain ⟨hsub, hslots, htimer, htimers⟩ := ih
    rw [cleanup_fds_succ]
    generalize https_client_cleanup_fds n c = r at hsub hslots htimer htimers ⊢
    by_cases hf : (r.fd n).fd ≠ 0
    · rw [if_pos hf]
      refine ⟨?_, ?_, by simpa using htimer, by simpa using htimers⟩
      · intro s hs
        rw [ev_io_stop_ios] at hs
        split at hs
        · exact hsub s (List.mem_of_mem_eraseP hs)
        · exact hsub s hs
      · intro d hd
        obtain ⟨hl, hact, hlt⟩ := hslots d hd
        unfold Linked at hl ⊢
        by_cases hdn : d = n
        · subst hdn
          rw [ev_io_stop_ios]
          simp only [ev_io_stop_fd, if_true]
          refine ⟨?_, by simp, fun _ => trivial⟩
          by_cases ha : (r.fd d).active = true
          · simp [ha, filter_eraseP_self, hl]
          · simp [ha, hl]
        · rw [ev_io_stop_ios]
          simp only [ev_io_stop_fd, hdn, if_false]
          refine ⟨?_, hact, fun h => hlt (by omega)⟩
          rw [← hl]
          split
          · exact eraseP_other_w d n hdn _
          · rfl
    · rw [if_neg hf]
      refine ⟨hsub, ?_, htimer, htimers⟩
      intro d hd
      obtain ⟨hl, hact, hlt⟩ := hslots d hd
      refine ⟨hl, hact, fun h => ?_⟩
      by_cases hdn : d = n
      · subst hdn
        by_contra hne
        exact hf (hact (by simpa using hne))
      · exact hlt (by omega)

theorem step_ios_asked (c : https_client_t) (op : Op) :
    ∀ s ∈ (step c op).loop.ios, s ∈ c.loop.ios ∨ Op.asksFor s.w op := by
  intro s hs
  cases op with
  | fetch new_ctx curl cb cb_data => exact Or.inl hs
  | write ctx a => exact Or.inl hs
  | sock_cb w revents rc msgs =>
    simp only [step] at hs
    split at hs
    · unfold sock_cb at hs
      rw [(drain_frame msgs _).2.2] at hs
      exact Or.inl hs
    · exact Or.inl hs
  | timer_cb rc msgs =>
    simp only [step] at hs
    split at hs
    · unfold timer_cb at hs
      rw [(drain_frame msgs _).2.2, (socket_action_frame _ _ _ _).2.2.2,
        ev_timer_stop_ios] at hs
      exact Or.inl hs
    · exact Or.inl hs
  | multi_sock_cb sock what =>
    simp only [step, multi_sock_cb_ios] at hs
    split at hs
    · split at hs
      · exact Or.inl (List.mem_of_mem_eraseP hs)
      · exact Or.inl hs
    · rcases List.mem_cons.mp hs with rfl | hs
      · exact Or.inr rfl
      · split at hs
        · exact Or.inl (List.mem_of_mem_eraseP hs)
        · exact Or.inl hs
  | multi_timer_cb timeout_ms rc msgs =>
    simp only [step, multi_timer_cb] at hs
    split at hs
    · simp only [ev_timer_start_ios, ev_timer_init, ev_timer_stop_ios] at hs
      exact Or.inl hs
    · unfold timer_cb at hs
      rw [(drain_frame msgs _).2.2, (socket_action_frame _ _ _ _).2.2.2,
        ev_timer_stop_ios] at hs
      exact Or.inl hs

theorem run_ios_asked (ops : List Op) :
    ∀ c : https_client_t, ∀ s ∈ (run ops c).loop.ios,
      s ∈ c.loop.ios ∨ ∃ op ∈ ops, Op.asksFor s.w op := by
  induction ops with
  | nil => intro c s hs; exact Or.inl hs
  | cons op rest ih =>
    intro c s hs
    rcases ih (step c op) s hs with h | ⟨o, ho, hask⟩
    · rcases step_ios_asked c op s h with h | h
      · exact Or.inl h
      · exact Or.inr ⟨op, List.mem_cons_self _ _, h⟩
    · exact Or.inr ⟨o, List.mem_cons_of_mem _ ho, hask⟩

theorem cleanup_reactor (FD_SETSIZE fuel : Nat) (c : https_client_t)
    (hI : Inv FD_SETSIZE c) (hfuel : c.fetches.length ≤ fuel) :
    ∃ c', https_client_cleanup FD_SETSIZE fuel c = some c' ∧ c'.loop.timers = [] ∧
      (∀ s ∈ c'.loop.ios, s ∈ c.loop.ios ∧ s.w = 0) := by
  unfold https_client_cleanup
  rw [cleanup_fetches_result fuel c hfuel]
  refine ⟨_, rfl, ?_, ?_⟩
  · have hI1 : Inv FD_SETSIZE
        { c with fetches := [], trace := c.trace ++ cleanupTrace c.fetches } :=
      inv_of_frame FD_SETSIZE c _ rfl rfl rfl hI
    obtain ⟨_, _, htimer, htimers⟩ := cleanup_fds_spec FD_SETSIZE _ hI1 FD_SETSIZE
    have hT := hI.2.2
    refine (ev_timer_stop_state _ ?_).1
    rw [htimer, htimers]
    exact hT
  · intro s hs
    have hI1 : Inv FD_SETSIZE
        { c with fetches := [], trace := c.trace ++ cleanupTrace c.fetches } :=
      inv_of_frame FD_SETSIZE c _ rfl rfl rfl hI
    obtain ⟨hsub, hslots, _, _⟩ := cleanup_fds_spec FD_SETSIZE _ hI1 FD_SETSIZE
    simp only [ev_timer_stop_ios] at hs
    have hmem : s ∈ c.loop.ios := hsub s hs
    refine ⟨hmem, ?_⟩
    by_contra hne
    have hpos : 0 < s.w := Nat.pos_of_ne_zero hne
    obtain ⟨hl, _, hlt⟩ := hslots s.w hpos
    unfold Linked at hl
    rw [hlt (hI.1 s hmem).2] at hl
    have : s ∈ List.filter (fun x => decide (x.w = s.w)) _ :=
      List.mem_filter.mpr ⟨hs, by simp⟩
    rw [hl] at this
    cases this

/-! ## The watchers of the descriptors the table can mark -/

/-- In a state reached from `https_client_init`, a request for `d` with
`0 < d < FD_SETSIZE` other than `CURL_POLL_REMOVE` leaves exactly one registration for `d`
in the reactor, the fresh one, which listens for read iff `what` has `CURL_POLL_IN` and for
write iff it has `CURL_POLL_OUT`, and marks the slot; and in every such state a descriptor
`0 < e < FD_SETSIZE` has one registration if its slot is marked and none otherwise. -/
theorem watch_leaves_one_subscription (FD_SETSIZE d what : Nat) (c : https_client_t)
    (hr : Reachable FD_SETSIZE c) (hd0 : 0 < d) (hd : d < FD_SETSIZE)
    (hw : what ≠ CURL_POLL_REMOVE) :
    subscriptions d (multi_sock_cb d what c) =
        [{ w := d, fd := d, events := watch_events what }] ∧
      (watch_events what &&& EV_READ ≠ 0 ↔ what &&& CURL_POLL_IN ≠ 0) ∧
      (watch_events what &&& EV_WRITE ≠ 0 ↔ what &&& CURL_POLL_OUT ≠ 0) ∧
      ((multi_sock_cb d what c).fd d).fd ≠ 0 ∧
      ∀ e, 0 < e → e < FD_SETSIZE →
        (subscriptions e c).length = if (c.fd e).fd ≠ 0 then 1 else 0 := by
  have hI := reachable_inv FD_SETSIZE c hr
  refine ⟨watch_subscriptions FD_SETSIZE d what c hI hd0 hd hw, watch_events_read what,
    watch_events_write what, ?_, fun e he _ => marked_subscriptions FD_SETSIZE e c hI he⟩
  rw [multi_sock_cb_fd]
  simp only [if_true, hw, if_false]
  exact Nat.pos_iff_ne_zero.mp hd0

/-- In a state reached from `https_client_init`, a remove request for `d` with
`0 < d < FD_SETSIZE` followed by a watch request for read, write or both leaves exactly one
registration for `d`; the remove request alone leaves none, the slot unmarked and its
watcher inactive. -/
theorem remove_then_watch_leaves_one (FD_SETSIZE d what : Nat) (c : https_client_t)
    (hr : Reachable FD_SETSIZE c) (hd0 : 0 < d) (hd : d < FD_SETSIZE)
    (hwhat : what = CURL_POLL_IN ∨ what = CURL_POLL_OUT ∨ what = CURL_POLL_INOUT) :
    (subscriptions d
        (multi_sock_cb d what (multi_sock_cb d CURL_POLL_REMOVE c))).length = 1 ∧
      subscriptions d (multi_sock_cb d CURL_POLL_REMOVE c) = [] ∧
      ((multi_sock_cb d CURL_POLL_REMOVE c).fd d).fd = 0 ∧
      ((multi_sock_cb d CURL_POLL_REMOVE c).fd d).active = false := by
  have hI := reachable_inv FD_SETSIZE c hr
  have hI' := multi_sock_cb_inv FD_SETSIZE d CURL_POLL_REMOVE c hd hI
  have hw : what ≠ CURL_POLL_REMOVE := by
    rcases hwhat with h | h | h <;> rw [h] <;> decide
  have hrem := remove_subscriptions FD_SETSIZE d c hI hd0 hd
  refine ⟨?_, hrem.1, ?_, ?_⟩
  · rw [watch_subscriptions FD_SETSIZE d what _ hI' hd0 hd hw]
    rfl
  · rw [hrem.2]
  · rw [hrem.2]

/-- After a run from `https_client_init` with requests within the table,
`https_client_cleanup` returns and leaves the reactor without a timer and without a
registration for any descriptor other than 0; when no request was made for descriptor 0 it
leaves the reactor with no registration at all. -/
theorem cleanup_cancels_subscriptions (FD_SETSIZE fuel : Nat) (ops : List Op)
    (hops : ∀ op ∈ ops, Op.inTable FD_SETSIZE op)
    (hfuel : (run ops (https_client_init FD_SETSIZE)).fetches.length ≤ fuel) :
    ∃ c', https_client_cleanup FD_SETSIZE fuel (run ops (https_client_init FD_SETSIZE)) =
        some c' ∧
      c'.loop.timers = [] ∧
      (∀ d, 0 < d → subscriptions d c' = []) ∧
      ((∀ op ∈ ops, ¬ Op.asksFor 0 op) → c'.loop.ios = []) := by
  have hI := reachable_inv FD_SETSIZE _ ⟨ops, hops, rfl⟩
  obtain ⟨c', hc', htimers, hios⟩ := cleanup_reactor FD_SETSIZE fuel _ hI hfuel
  refine ⟨c', hc', htimers, ?_, ?_⟩
  · intro d hd
    unfold subscriptions
    rw [List.filter_eq_nil_iff]
    intro s hs
    have h0 := (hios s hs).2
    have hfd := (hI.1 s (hios s hs).1).1
    simp only [decide_eq_true_eq]
    omega
  · intro hnever
    rw [List.eq_nil_iff_forall_not_mem]
    intro s hs
    obtain ⟨hmem, h0⟩ := hios s hs
    rcases run_ios_asked ops _ s hmem with h | ⟨op, hop, hask⟩
    · rw [https_client_init_eq] at h
      cases h
    · rw [h0] at hask
      exact hnever op hop hask

/-- A watch request for a slot that is not marked goes straight to `ev_io_init` and
`ev_io_start`: the guard of line 145 keeps `ev_io_stop` from being called. -/
theorem watch_unmarked_skips_stop (sock what : Nat) (c : https_client_t)
    (hw : what ≠ CURL_POLL_REMOVE) (hf : (c.fd sock).fd = 0) :
    multi_sock_cb sock what c =
      ev_io_start (ev_io_init c sock sock (watch_events what)) sock := by
  simp [multi_sock_cb, hw, hf]

/-! ## The claims about the watchers and the timer -/

/-- C6 fails in the code at descriptor 0.  After `multi_sock_cb(0, CURL_POLL_IN)` on the
initial state the reactor holds a registration for descriptor 0 and the watcher is active,
yet the slot is not marked (`c->fd[0].fd == 0`); a following watch request for descriptor 0
therefore calls `ev_io_init` and `ev_io_start` without `ev_io_stop`, so the subscription
that is active is not cancelled first. -/
theorem descriptor_zero_watch_unmarked :
    subscriptions 0 (multi_sock_cb 0 CURL_POLL_IN (https_client_init 4)) =
        [{ w := 0, fd := 0, events := 1 }] ∧
      ((multi_sock_cb 0 CURL_POLL_IN (https_client_init 4)).fd 0).active = true ∧
      ((multi_sock_cb 0 CURL_POLL_IN (https_client_init 4)).fd 0).fd = 0 ∧
      multi_sock_cb 0 CURL_POLL_INOUT (multi_sock_cb 0 CURL_POLL_IN (https_client_init 4)) =
        ev_io_start
          (ev_io_init (multi_sock_cb 0 CURL_POLL_IN (https_client_init 4)) 0 0
            (watch_events CURL_POLL_INOUT)) 0 :=
  ⟨by decide, by decide, by decide,
    watch_unmarked_skips_stop 0 CURL_POLL_INOUT _ (by decide) (by decide)⟩

/-- C9 fails in the code at descriptor 0.  After one watch request for descriptor 0 the
loop of `https_client_cleanup` passes slot 0 by (`c->fd[0].fd == 0`) and the registration
for descriptor 0 stays in the reactor. -/
theorem descriptor_zero_survives_cleanup :
    (https_client_cleanup 4 0
        (run [Op.multi_sock_cb 0 CURL_POLL_IN] (https_client_init 4))).map
      (fun c => c.loop.ios) = some [{ w := 0, fd := 0, events := 1 }] := by
  decide

/-! ## The theorems at concrete inputs -/

/-- C1 at a run of three submissions with a drain in between. -/
theorem every_submission_called_back_once_witness :
    (run [Op.fetch 16 1 5 50, Op.fetch 32 2 5 51, Op.multi_timer_cb 0 CURLM_OK [⟨1, 1⟩],
        Op.fetch 48 3 6 52] (https_client_init 4)).fetches.length ≤ 2 ∧
      ((submitted [Op.fetch 16 1 5 50, Op.fetch 32 2 5 51, Op.multi_timer_cb 0 CURLM_OK [⟨1, 1⟩],
        Op.fetch 48 3 6 52]).map fun k => k.2.1).Nodup ∧
      (submitted [Op.fetch 16 1 5 50, Op.fetch 32 2 5 51, Op.multi_timer_cb 0 CURLM_OK [⟨1, 1⟩],
        Op.fetch 48 3 6 52]).length =
        (callbacks (run [Op.fetch 16 1 5 50, Op.fetch 32 2 5 51,
          Op.multi_timer_cb 0 CURLM_OK [⟨1, 1⟩], Op.fetch 48 3 6 52]
          (https_client_init 4)).trace).length +
        (run [Op.fetch 16 1 5 50, Op.fetch 32 2 5 51, Op.multi_timer_cb 0 CURLM_OK [⟨1, 1⟩],
          Op.fetch 48 3 6 52] (https_client_init 4)).fetches.length :=
  ⟨by decide, by decide,
    (every_submission_called_back_once 4 2
      [Op.fetch 16 1 5 50, Op.fetch 32 2 5 51, Op.multi_timer_cb 0 CURLM_OK [⟨1, 1⟩],
        Op.fetch 48 3 6 52] (by decide) (by decide)).1⟩

/-- C2 at a registry of two contexts. -/
theorem cleanup_completes_all_witness :
    ∃ c', https_client_cleanup 4 2
        { zeroed with fetches := [⟨32, 2, 5, 51, some [111, 107, 0], 2⟩,
                                  ⟨16, 1, 5, 50, none, 0⟩] } = some c' ∧
      callbacks c'.trace =
        [⟨32, 2, 5, 51, some [111, 107, 0], 2⟩, ⟨16, 1, 5, 50, none, 0⟩] ∧
      c'.fetches = [] ∧
      ∀ msgs, check_multi_info msgs c' = c' :=
  cleanup_completes_all 4 2
    { zeroed with fetches := [⟨32, 2, 5, 51, some [111, 107, 0], 2⟩,
                              ⟨16, 1, 5, 50, none, 0⟩] } (by decide)

/-- C3 as amended, at a registry of two contexts and the second of them. -/
theorem callback_runs_before_unlink_witness :
    (https_fetch_ctx_cleanup
        { zeroed with fetches := [⟨32, 2, 5, 51, none, 0⟩, ⟨16, 1, 5, 50, none, 0⟩] }
        16).trace =
        [Event.curl_multi_remove_handle 1, Event.curl_easy_cleanup 1,
         Event.callback ⟨16, 1, 5, 50, none, 0⟩
           [⟨32, 2, 5, 51, none, 0⟩, ⟨16, 1, 5, 50, none, 0⟩]] ∧
      (https_fetch_ctx_cleanup
        { zeroed with fetches := [⟨32, 2, 5, 51, none, 0⟩, ⟨16, 1, 5, 50, none, 0⟩] }
        16).fetches = [⟨32, 2, 5, 51, none, 0⟩] :=
  have h := callback_runs_before_unlink
    { zeroed with fetches := [⟨32, 2, 5, 51, none, 0⟩, ⟨16, 1, 5, 50, none, 0⟩] }
    ⟨16, 1, 5, 50, none, 0⟩ (by decide) (by decide)
  ⟨h.1, h.2.1⟩

/-- C4 at a context holding one byte and a chunk of two. -/
theorem write_buffer_accumulates_witness :
    write_buffer (some [9, 9, 9, 9, 9]) [107, 33] 1 2 ⟨16, 1, 5, 50, some [111, 0], 1⟩ =
      (⟨16, 1, 5, 50, some [111, 107, 33, 0], 3⟩, 2) :=
  (write_buffer_accumulates ⟨16, 1, 5, 50, some [111, 0], 1⟩ [111] [107, 33] [9, 9, 9, 9, 9]
    1 2 rfl (Or.inr ⟨[0], rfl⟩) rfl).1

/-- C5 as amended, at a context holding one byte. -/
theorem write_buffer_failure_keeps_buffer_witness :
    callbacks (https_fetch_ctx_cleanup
        (step { zeroed with fetches := [⟨16, 1, 5, 50, some [111, 0], 1⟩] }
          (Op.write 16 ⟨none, [107, 33], 1, 2⟩)) 16).trace =
      [⟨16, 1, 5, 50, some [111, 0], 1⟩] :=
  (write_buffer_failure_keeps_buffer
    { zeroed with fetches := [⟨16, 1, 5, 50, some [111, 0], 1⟩] }
    ⟨16, 1, 5, 50, some [111, 0], 1⟩ [107, 33] 1 2 (by decide) (by decide)).2.2.2

/-- A watch request at descriptor 2, already watched for read. -/
theorem watch_leaves_one_subscription_witness :
    Reachable 4 (run [Op.multi_sock_cb 2 CURL_POLL_IN] (https_client_init 4)) ∧
      subscriptions 2 (multi_sock_cb 2 CURL_POLL_INOUT
        (run [Op.multi_sock_cb 2 CURL_POLL_IN] (https_client_init 4))) =
        [{ w := 2, fd := 2, events := watch_events CURL_POLL_INOUT }] :=
  ⟨⟨[Op.multi_sock_cb 2 CURL_POLL_IN], by decide, rfl⟩,
    (watch_leaves_one_subscription 4 2 CURL_POLL_INOUT
      (run [Op.multi_sock_cb 2 CURL_POLL_IN] (https_client_init 4))
      ⟨[Op.multi_sock_cb 2 CURL_POLL_IN], by decide, rfl⟩
      (by decide) (by decide) (by decide)).1⟩

/-- Remove and watch at descriptor 3, already watched for write. -/
theorem remove_then_watch_leaves_one_witness :
    Reachable 4 (run [Op.multi_sock_cb 3 CURL_POLL_OUT] (https_client_init 4)) ∧
      (subscriptions 3 (multi_sock_cb 3 CURL_POLL_IN (multi_sock_cb 3 CURL_POLL_REMOVE
        (run [Op.multi_sock_cb 3 CURL_POLL_OUT] (https_client_init 4))))).length = 1 :=
  ⟨⟨[Op.multi_sock_cb 3 CURL_POLL_OUT], by decide, rfl⟩,
    (remove_then_watch_leaves_one 4 3 CURL_POLL_IN
      (run [Op.multi_sock_cb 3 CURL_POLL_OUT] (https_client_init 4))
      ⟨[Op.multi_sock_cb 3 CURL_POLL_OUT], by decide, rfl⟩
      (by decide) (by decide) (Or.inl rfl)).1⟩

/-- Shutdown after a run with two watched descriptors, a timer and a submission. -/
theorem cleanup_cancels_subscriptions_witness :
    ∃ c', https_client_cleanup 4 1
        (run [Op.multi_sock_cb 1 CURL_POLL_IN, Op.fetch 16 1 5 50,
          Op.multi_sock_cb 3 CURL_POLL_OUT, Op.multi_timer_cb 5 CURLM_OK []]
          (https_client_init 4)) = some c' ∧
      c'.loop.timers = [] ∧
      (∀ d, 0 < d → subscriptions d c' = []) ∧
      ((∀ op ∈ [Op.multi_sock_cb 1 CURL_POLL_IN, Op.fetch 16 1 5 50,
          Op.multi_sock_cb 3 CURL_POLL_OUT, Op.multi_timer_cb 5 CURLM_OK []],
        ¬ Op.asksFor 0 op) → c'.loop.ios = []) :=
  cleanup_cancels_subscriptions 4 1
    [Op.multi_sock_cb 1 CURL_POLL_IN, Op.fetch 16 1 5 50,
      Op.multi_sock_cb 3 CURL_POLL_OUT, Op.multi_timer_cb 5 CURLM_OK []] (by decide) (by decide)

/-- C10 at a registry of three contexts and the handle of the middle one. -/
theorem drain_done_completes_only_its_context_witness :
    (check_multi_info [⟨CURLMSG_DONE, 2⟩]
        { zeroed with fetches := [⟨48, 3, 6, 52, none, 0⟩, ⟨32, 2, 5, 51, some [111, 0], 1⟩,
                                  ⟨16, 1, 5, 50, none, 0⟩] }).fetches =
        [⟨48, 3, 6, 52, none, 0⟩, ⟨16, 1, 5, 50, none, 0⟩] ∧
      callbacks (check_multi_info [⟨CURLMSG_DONE, 2⟩]
        { zeroed with fetches := [⟨48, 3, 6, 52, none, 0⟩, ⟨32, 2, 5, 51, some [111, 0], 1⟩,
                                  ⟨16, 1, 5, 50, none, 0⟩] }).trace =
        [⟨32, 2, 5, 51, some [111, 0], 1⟩] :=
  have h := (drain_done_completes_only_its_context
    { zeroed with fetches := [⟨48, 3, 6, 52, none, 0⟩, ⟨32, 2, 5, 51, some [111, 0], 1⟩,
                              ⟨16, 1, 5, 50, none, 0⟩] } 2 (by decide) (by decide)).1
    [⟨48, 3, 6, 52, none, 0⟩] ⟨32, 2, 5, 51, some [111, 0], 1⟩ [⟨16, 1, 5, 50, none, 0⟩]
    rfl rfl
  ⟨h.1, h.2.2⟩

end HttpsClient
